import Mathlib

/-!
Verification development for the Gemini knowledge-graph extraction service.

The definitions below are a shallow embedding of the TypeScript source:

* the response-text JSON extraction pipeline of `GeminiScraper.extract`
  (src/server/gemini_scraper.ts, lines 1728-1841): HTML-entity decoding,
  the three candidate-collection strategies (sentinel delimiters, fenced
  code blocks, brace span), schema-skeleton filtering and surgical trim,
  longest-candidate selection, and the strict-parse / repair / hard-error
  parsing stage;
* the storage queries `DatabaseStorage.getAvailableAccount` and
  `DatabaseStorage.getPendingQueueItem` (src/unnamed/part_011, lines
  90-104 and 122-129), read over an explicit list of rows;
* the concurrent queue processor of src/unnamed/part_008:
  `QueueProcessor.cancelTask` (lines 29-66), the failure-path updates of
  `QueueProcessor.processTask` (lines 213-235) and its try/catch/finally
  structure (lines 140-287), and the claim/mark interleaving of
  `QueueProcessor.processLoop` (lines 109-128).

Texts are modelled as `List Char`; the JS string primitives used by the
source (indexOf, lastIndexOf, includes, substring, replace, trim) are
given direct recursive models below, together with a toolkit of
decomposition lemmas that let concrete multi-thousand-character inputs be
evaluated symbolically (segment by segment) instead of by kernel
reduction.
-/

set_option maxRecDepth 4000

abbrev Text := List Char

/-- Model of JS `s.indexOf(pat)`: index of the first occurrence of `pat`
in `s`, `none` when absent (JS returns -1). -/
def substrIdx (pat : Text) : Text → Option Nat
  | [] => if pat.isPrefixOf ([] : Text) then some 0 else none
  | c :: rest =>
    if pat.isPrefixOf (c :: rest) then some 0
    else (substrIdx pat rest).map (· + 1)

/-- Model of JS `s.lastIndexOf(pat)`: index of the last occurrence of
`pat` in `s`, `none` when absent. -/
def lastSubstrIdx (pat : Text) : Text → Option Nat
  | [] => if pat.isPrefixOf ([] : Text) then some 0 else none
  | c :: rest =>
    match lastSubstrIdx pat rest with
    | some i => some (i + 1)
    | none => if pat.isPrefixOf (c :: rest) then some 0 else none

/-- Model of JS `s.includes(pat)`. -/
def hasSubstr (s pat : Text) : Bool := (substrIdx pat s).isSome

/-- Whitespace as matched by the JS regexes and `trim` used in the
source (the characters that can actually occur in its inputs). -/
def isWs (c : Char) : Bool :=
  c = ' ' || c = '\n' || c = '\t' || c = '\r' || c = '\x0b' || c = '\x0c'

/-- Model of JS `String.prototype.trim`. -/
def jsTrim (s : Text) : Text :=
  ((s.dropWhile isWs).reverse.dropWhile isWs).reverse

/-- One pass of JS `s.replace(/pat/g, rep)` for a literal pattern:
scan left to right, replacing non-overlapping occurrences. Fuel-driven;
`replaceAll` supplies enough fuel. -/
def replaceAllAux (pat rep : Text) : Nat → Text → Text
  | _, [] => []
  | 0, s => s
  | fuel + 1, c :: rest =>
    if pat.isPrefixOf (c :: rest) && !pat.isEmpty then
      rep ++ replaceAllAux pat rep fuel (List.drop (pat.length - 1) rest)
    else
      c :: replaceAllAux pat rep fuel rest

def replaceAll (pat rep s : Text) : Text := replaceAllAux pat rep s.length s

/-- First occurrence of `pat` in `xs ++ ys` that starts inside `xs`
(the occurrence may run on into `ys`). Auxiliary notion used to
decompose `substrIdx` over appends. -/
def substrIdxFrom (pat : Text) : Text → Text → Option Nat
  | [], _ => none
  | c :: rest, ys =>
    if pat.isPrefixOf ((c :: rest) ++ ys) then some 0
    else (substrIdxFrom pat rest ys).map (· + 1)

/-- Last occurrence of `pat` in `xs ++ ys` that starts inside `xs`. -/
def lastSubstrIdxFrom (pat : Text) : Text → Text → Option Nat
  | [], _ => none
  | c :: rest, ys =>
    match lastSubstrIdxFrom pat rest ys with
    | some i => some (i + 1)
    | none => if pat.isPrefixOf ((c :: rest) ++ ys) then some 0 else none

/-! ### Decomposition toolkit for the text primitives -/

theorem isPrefixOf_append_left {pat xs : Text} (h : pat.isPrefixOf xs = true)
    (ys : Text) : pat.isPrefixOf (xs ++ ys) = true := by
  rw [List.isPrefixOf_iff_prefix] at h ⊢
  exact h.trans (List.prefix_append xs ys)

theorem isPrefixOf_take {pat : Text} : ∀ s : Text,
    pat.isPrefixOf s = pat.isPrefixOf (s.take pat.length) := by
  induction pat with
  | nil => intro s; simp
  | cons a pt ih =>
    intro s
    cases s with
    | nil => simp
    | cons b t =>
      simp only [List.length_cons, List.take_succ_cons, List.isPrefixOf_cons₂]
      rw [ih t]

theorem substrIdx_append (pat xs ys : Text) :
    substrIdx pat (xs ++ ys) =
      match substrIdxFrom pat xs ys with
      | some i => some i
      | none => (substrIdx pat ys).map (· + xs.length) := by
  induction xs with
  | nil =>
    simp only [List.nil_append, substrIdxFrom, List.length_nil]
    cases h : substrIdx pat ys with
    | none => simp
    | some i => simp
  | cons c rest ih =>
    simp only [List.cons_append, substrIdx, substrIdxFrom, List.append_eq]
    rw [ih]
    by_cases h : List.isPrefixOf pat (c :: (rest ++ ys)) = true
    case pos => simp only [if_pos h]
    case neg =>
      simp only [if_neg h]
      cases hf : substrIdxFrom pat rest ys with
      | some i => rfl
      | none =>
        cases hs : substrIdx pat ys with
        | none => rfl
        | some j =>
          simp only [Option.map_none', Option.map_some', List.length_cons,
            Option.some.injEq]
          omega

theorem lastSubstrIdx_append (pat xs ys : Text) :
    lastSubstrIdx pat (xs ++ ys) =
      match lastSubstrIdx pat ys with
      | some i => some (xs.length + i)
      | none => lastSubstrIdxFrom pat xs ys := by
  induction xs with
  | nil =>
    simp only [List.nil_append, lastSubstrIdxFrom, List.length_nil]
    cases h : lastSubstrIdx pat ys with
    | none => simp
    | some i => simp
  | cons c rest ih =>
    simp only [List.cons_append, lastSubstrIdx, lastSubstrIdxFrom, List.append_eq]
    rw [ih]
    cases hy : lastSubstrIdx pat ys with
    | some i =>
      simp only [List.length_cons, Option.some.injEq]
      omega
    | none =>
      cases hf : lastSubstrIdxFrom pat rest ys with
      | some i => rfl
      | none => rfl

theorem substrIdx_none_of_head_notMem {h : Char} {pt : Text} : ∀ s : Text,
    (∀ c ∈ s, c ≠ h) → substrIdx (h :: pt) s = none := by
  intro s
  induction s with
  | nil => intro _; rfl
  | cons c rest ih =>
    intro hall
    have hc : (h == c) = false :=
      beq_eq_false_iff_ne.mpr (fun he => hall c (List.mem_cons_self c rest) he.symm)
    simp only [substrIdx, List.isPrefixOf_cons₂, hc, Bool.false_and, Bool.false_eq_true,
      if_false]
    rw [ih (fun d hd => hall d (List.mem_cons_of_mem c hd))]
    rfl

theorem lastSubstrIdx_none_of_head_notMem {h : Char} {pt : Text} : ∀ s : Text,
    (∀ c ∈ s, c ≠ h) → lastSubstrIdx (h :: pt) s = none := by
  intro s
  induction s with
  | nil => intro _; rfl
  | cons c rest ih =>
    intro hall
    have hc : (h == c) = false :=
      beq_eq_false_iff_ne.mpr (fun he => hall c (List.mem_cons_self c rest) he.symm)
    simp only [lastSubstrIdx, ih (fun d hd => hall d (List.mem_cons_of_mem c hd)),
      List.isPrefixOf_cons₂, hc, Bool.false_and, Bool.false_eq_true, if_false]

theorem substrIdxFrom_none_of_head_notMem {h : Char} {pt : Text} (ys : Text) :
    ∀ xs : Text, (∀ c ∈ xs, c ≠ h) → substrIdxFrom (h :: pt) xs ys = none := by
  intro xs
  induction xs with
  | nil => intro _; rfl
  | cons c rest ih =>
    intro hall
    have hc : (h == c) = false :=
      beq_eq_false_iff_ne.mpr (fun he => hall c (List.mem_cons_self c rest) he.symm)
    simp only [substrIdxFrom, List.cons_append, List.isPrefixOf_cons₂, hc,
      Bool.false_and, Bool.false_eq_true, if_false]
    rw [ih (fun d hd => hall d (List.mem_cons_of_mem c hd))]
    rfl

theorem lastSubstrIdxFrom_none_of_head_notMem {h : Char} {pt : Text} (ys : Text) :
    ∀ xs : Text, (∀ c ∈ xs, c ≠ h) → lastSubstrIdxFrom (h :: pt) xs ys = none := by
  intro xs
  induction xs with
  | nil => intro _; rfl
  | cons c rest ih =>
    intro hall
    have hc : (h == c) = false :=
      beq_eq_false_iff_ne.mpr (fun he => hall c (List.mem_cons_self c rest) he.symm)
    simp only [lastSubstrIdxFrom, ih (fun d hd => hall d (List.mem_cons_of_mem c hd)),
      List.cons_append, List.isPrefixOf_cons₂, hc, Bool.false_and, Bool.false_eq_true,
      if_false]

theorem substrIdxFrom_take (pat : Text) : ∀ xs ys : Text,
    substrIdxFrom pat xs ys = substrIdxFrom pat xs (ys.take pat.length) := by
  intro xs ys
  induction xs with
  | nil => rfl
  | cons c rest ih =>
    simp only [substrIdxFrom]
    rw [ih]
    have hpre : List.isPrefixOf pat ((c :: rest) ++ ys) =
        List.isPrefixOf pat ((c :: rest) ++ ys.take pat.length) := by
      rw [isPrefixOf_take ((c :: rest) ++ ys),
        isPrefixOf_take ((c :: rest) ++ ys.take pat.length)]
      congr 1
      rw [List.take_append_eq_append_take, List.take_append_eq_append_take,
        List.take_take]
      congr 1
      have : pat.length - (c :: rest).length ≤ pat.length := Nat.sub_le _ _
      rw [Nat.min_eq_left this]
    rw [hpre]

theorem lastSubstrIdxFrom_take (pat : Text) : ∀ xs ys : Text,
    lastSubstrIdxFrom pat xs ys = lastSubstrIdxFrom pat xs (ys.take pat.length) := by
  intro xs ys
  induction xs with
  | nil => rfl
  | cons c rest ih =>
    simp only [lastSubstrIdxFrom]
    rw [ih]
    have hpre : List.isPrefixOf pat ((c :: rest) ++ ys) =
        List.isPrefixOf pat ((c :: rest) ++ ys.take pat.length) := by
      rw [isPrefixOf_take ((c :: rest) ++ ys),
        isPrefixOf_take ((c :: rest) ++ ys.take pat.length)]
      congr 1
      rw [List.take_append_eq_append_take, List.take_append_eq_append_take,
        List.take_take]
      congr 1
      have : pat.length - (c :: rest).length ≤ pat.length := Nat.sub_le _ _
      rw [Nat.min_eq_left this]
    rw [hpre]

theorem substrIdxFrom_isSome {h : Char} {pt : Text} (ys : Text) : ∀ xs : Text,
    (substrIdx (h :: pt) xs).isSome = true →
    (substrIdxFrom (h :: pt) xs ys).isSome = true := by
  intro xs
  induction xs with
  | nil => intro hx; simp [substrIdx] at hx
  | cons c rest ih =>
    intro hx
    simp only [substrIdxFrom]
    by_cases hp : List.isPrefixOf (h :: pt) ((c :: rest) ++ ys) = true
    · rw [if_pos hp]; rfl
    · rw [if_neg hp, Option.isSome_map']
      apply ih
      simp only [substrIdx] at hx
      by_cases hq : List.isPrefixOf (h :: pt) (c :: rest) = true
      · exact absurd (isPrefixOf_append_left hq ys) hp
      · rw [if_neg hq, Option.isSome_map'] at hx
        exact hx

theorem hasSubstr_append_left {xs : Text} {h : Char} {pt : Text}
    (hx : hasSubstr xs (h :: pt) = true) (ys : Text) :
    hasSubstr (xs ++ ys) (h :: pt) = true := by
  unfold hasSubstr at hx ⊢
  rw [substrIdx_append]
  cases hf : substrIdxFrom (h :: pt) xs ys with
  | some i => rfl
  | none =>
    have := substrIdxFrom_isSome ys xs hx
    rw [hf] at this
    simp at this

theorem replaceAllAux_id_of_head_notMem {h : Char} {pt rep : Text} :
    ∀ (fuel : Nat) (s : Text), (∀ c ∈ s, c ≠ h) →
    replaceAllAux (h :: pt) rep fuel s = s := by
  intro fuel
  induction fuel with
  | zero => intro s _; cases s <;> rfl
  | succ n ih =>
    intro s hall
    cases s with
    | nil => rfl
    | cons c rest =>
      have hc : (h == c) = false :=
        beq_eq_false_iff_ne.mpr (fun he => hall c (List.mem_cons_self c rest) he.symm)
      simp only [replaceAllAux, List.isPrefixOf_cons₂, hc, Bool.false_and,
        Bool.false_eq_true, if_false,
        ih rest (fun d hd => hall d (List.mem_cons_of_mem c hd))]

theorem replaceAll_id_of_head_notMem {h : Char} {pt rep : Text} {s : Text}
    (hall : ∀ c ∈ s, c ≠ h) : replaceAll (h :: pt) rep s = s :=
  replaceAllAux_id_of_head_notMem s.length s hall

theorem take_replicate_min (a : Char) : ∀ k n : Nat,
    (List.replicate n a).take k = List.replicate (min k n) a := by
  intro k
  induction k with
  | zero => intro n; simp
  | succ m ih =>
    intro n
    cases n with
    | zero => simp
    | succ n' =>
      simp only [List.replicate_succ, List.take_succ_cons, ih, Nat.succ_min_succ]

/-! ### Embedding of the JSON extraction pipeline of GeminiScraper.extract
(src/server/gemini_scraper.ts, lines 1728-1841). -/

def startTag : Text := "<<<JSON_START>>>".toList

def endTag : Text := "<<<JSON_END>>>".toList

/-- Step 1 of the pipeline: decode HTML entities, in the order the source
chains its three `replace` calls. -/
def decodeEntities (s : Text) : Text :=
  replaceAll "&quot;".toList "\x22".toList
    (replaceAll "&gt;".toList ">".toList
      (replaceAll "&lt;".toList "<".toList s))

/-- Strategy A (lines 1735-1749): last occurrence of the start sentinel,
then the first end sentinel after it; the enclosed text, trimmed. -/
def delimCandidates (s : Text) : List Text :=
  match lastSubstrIdx startTag s with
  | none => []
  | some i =>
    let sect := s.drop (i + startTag.length)
    match substrIdx endTag sect with
    | none => []
    | some e => [jsTrim (sect.take e)]

def openBrace : Char := '{'

def closeBrace : Char := '}'

def fence : Text := "```".toList

def wsDrop (s : Text) : Text := s.dropWhile isWs

/-- Position of the closing brace accepted by the lazy part of the
markdown regex (line 1752): the first brace that is followed, after
whitespace, by a closing fence. -/
def lazyCloseAux : Text → Nat → Option Nat
  | [], _ => none
  | c :: rest, i =>
    if c = closeBrace && fence.isPrefixOf (wsDrop rest) then some i
    else lazyCloseAux rest (i + 1)

/-- One attempted match of the fenced-code-block regex
(three backticks, optional case-insensitive "json", whitespace, then a
lazily-closed brace group followed by whitespace and a closing fence) at
the head of the text. Returns the trimmed capture and the text after the
full match. -/
def fenceMatchAt (s : Text) : Option (Text × Text) :=
  if fence.isPrefixOf s then
    let afterTicks := s.drop 3
    let afterJson :=
      if ("json".toList).isPrefixOf ((afterTicks.take 4).map Char.toLower) then
        afterTicks.drop 4
      else afterTicks
    match wsDrop afterJson with
    | [] => none
    | c :: body =>
      if c = openBrace then
        match lazyCloseAux body 0 with
        | some m =>
          some (jsTrim (openBrace :: body.take (m + 1)),
                (wsDrop (body.drop (m + 1))).drop 3)
        | none => none
      else none
  else none

/-- Strategy B (lines 1751-1756): global scan of the markdown regex. -/
def mdScanAux : Nat → Text → List Text
  | 0, _ => []
  | _ + 1, [] => []
  | fuel + 1, c :: rest =>
    match fenceMatchAt (c :: rest) with
    | some (cand, next) => cand :: mdScanAux fuel next
    | none => mdScanAux fuel rest

def mdCandidates (s : Text) : List Text := mdScanAux s.length s

/-- Strategy C (lines 1758-1765): first opening brace to last closing
brace, when the latter is strictly after the former. -/
def bruteCandidates (s : Text) : List Text :=
  match substrIdx [openBrace] s, lastSubstrIdx [closeBrace] s with
  | some f, some l => if f < l then [(s.drop f).take (l + 1 - f)] else []
  | _, _ => []

/-- Candidates in the order the source pushes them: A, then B, then C. -/
def collectCandidates (s : Text) : List Text :=
  delimCandidates s ++ mdCandidates s ++ bruteCandidates s

def schemaMarker1 : Text := "\x22extraction_metadata\x22: \x7b\x7d".toList

def schemaMarker2 : Text := "\x22company_identity\x22: \x7b\x7d".toList

/-- Line 1776: detection of the echoed empty prompt-schema skeleton. -/
def isSchema (c : Text) : Bool :=
  hasSubstr c schemaMarker1 || hasSubstr c schemaMarker2

def keyMarker : Text := "\x22extraction_metadata\x22".toList

/-- Lines 1784-1801: the "messy blob" surgical trim. A candidate above
20000 characters that still contains the schema skeleton is trimmed to
start at the brace immediately preceding the second occurrence of the
key marker, when such a second occurrence exists. -/
def processCandidate (c : Text) : Text :=
  if c.length > 20000 && isSchema c then
    match substrIdx keyMarker c with
    | none => c
    | some first =>
      match substrIdx keyMarker (c.drop (first + 1)) with
      | none => c
      | some d =>
        let second := first + 1 + d
        match lastSubstrIdx [openBrace] (c.take (second + 1)) with
        | none => c
        | some realStart => c.drop realStart
  else c

/-- Lines 1767-1808: the selection loop. Keeps the first candidate whose
processed length strictly exceeds the best score so far; candidates
under 100 characters, and schema skeletons under 5000 characters, are
skipped. -/
def selectLoop : List Text → Text → Nat → Text
  | [], best, _ => best
  | c :: rest, best, score =>
    if c.length < 100 then selectLoop rest best score
    else if isSchema c && c.length < 5000 then selectLoop rest best score
    else
      let p := processCandidate c
      if p.length > score then selectLoop rest p p.length
      else selectLoop rest best score

/-- The text-processing portion of `GeminiScraper.extract`: entity
decoding, candidate collection, and best-candidate selection. `none`
models the thrown "No valid JSON candidates found after filtering."
error (line 1811). -/
def extractFromText (fullText : Text) : Option Text :=
  let t := decodeEntities fullText
  let best := selectLoop (collectCandidates t) [] 0
  if best.isEmpty then none else some best

/-- The error thrown by the source: a JS `Error` built with
`new Error(message)`. No `rawResponse` field is ever attached by
`extract`; the model records that field explicitly because the queue
processor's failure handler (src/unnamed/part_008, lines 251-264) looks
for it. -/
structure ScrapeError where
  message : Text
  rawResponse : Option Text
deriving DecidableEq

def parseFailMsg (e1 e2 : Text) : Text :=
  "JSON Parse Failed: ".toList ++ e1 ++ " | Repair Failed: ".toList ++ e2

/-- Lines 1816-1841: parsing of the selected candidate. `jsonParse`
models the host JSON.parse, `jsonrepair` the external repair library;
both are capabilities outside this repository, so they are parameters.
Strict parse first; on failure, repair then re-parse; if that also
fails, throw a hard error whose message combines both failure
messages. -/
def parseWithRepair {J : Type} (jsonParse : Text → Except Text J)
    (jsonrepair : Text → Except Text Text) (best : Text) : Except ScrapeError J :=
  match jsonParse best with
  | Except.ok kg => Except.ok kg
  | Except.error e1 =>
    match (jsonrepair best).bind jsonParse with
    | Except.ok kg => Except.ok kg
    | Except.error e2 => Except.error ⟨parseFailMsg e1 e2, none⟩

/-! ### Data model (shared/schema via src/unnamed/part_000) and the
storage queries of src/unnamed/part_011. Timestamps are integers
(milliseconds); the bookkeeping columns createdAt/updatedAt of accounts
are not modelled, and queue rows keep the fields the processor reads. -/

inductive TaskStatus
  | queued
  | processing
  | completed
  | failed
  | cancelled
deriving DecidableEq

structure QueueItem where
  id : Nat
  status : TaskStatus
  priority : Int
  createdAt : Int
  retryCount : Nat
  errorMessage : Option Text
  assignedAccountId : Option Nat
deriving DecidableEq

structure GeminiAccount where
  id : Nat
  isActive : Bool
  isCurrentlyInUse : Bool
  rateLimitedUntil : Option Int
  lastUsedAt : Option Int
  totalExtractionsCount : Nat
  successCount : Nat
  failureCount : Nat
  lastError : Option Text
deriving DecidableEq

/-- The WHERE clause of `DatabaseStorage.getAvailableAccount`
(src/unnamed/part_011, lines 94-101):
`isActive = true AND isCurrentlyInUse = false AND
 (rateLimitedUntil IS NULL OR rateLimitedUntil < now)`. -/
def accountAvailable (now : Int) (a : GeminiAccount) : Bool :=
  a.isActive && !a.isCurrentlyInUse &&
    (match a.rateLimitedUntil with
     | none => true
     | some t => decide (t < now))

/-- `DatabaseStorage.getAvailableAccount`: the first row satisfying the
availability predicate (SELECT ... LIMIT 1 over the account table, read
here as a list of rows). -/
def getAvailableAccount (now : Int) (accounts : List GeminiAccount) :
    Option GeminiAccount :=
  (accounts.filter (accountAvailable now)).head?

/-- `DatabaseStorage.getPendingQueueItem` (src/unnamed/part_011, lines
122-129): among rows with status queued, the row maximal for
ORDER BY priority DESC, createdAt DESC (LIMIT 1). The fold keeps the
earlier row on full ties, where SQL leaves the choice unspecified. -/
def getPendingQueueItem (items : List QueueItem) : Option QueueItem :=
  (items.filter (fun t => t.status = TaskStatus.queued)).foldl
    (fun best t =>
      match best with
      | none => some t
      | some b =>
        if t.priority > b.priority ∨
            (t.priority = b.priority ∧ t.createdAt > b.createdAt) then some t
        else some b)
    none

/-! ### Embedding of QueueProcessor.processTask (src/unnamed/part_008,
lines 140-287). -/

/-- Hardcoded retry cap of the failure path (line 218). -/
def maxRetries : Nat := 3

/-- Task update of the failure path (lines 217-228): increment the retry
count; requeue while the incremented count is below the cap, otherwise
mark failed. -/
def failTaskUpdate (errMsg : Text) (t : QueueItem) : QueueItem :=
  let currentRetryCount := t.retryCount + 1
  let shouldRetry := currentRetryCount < maxRetries
  { t with
    status := if shouldRetry then TaskStatus.queued else TaskStatus.failed,
    errorMessage := some errMsg,
    retryCount := currentRetryCount }

/-- Rate-limit detection by message content (line 214). -/
def isRateLimitMsg (msg : Text) : Bool :=
  hasSubstr (msg.map Char.toLower) "rate limit".toList

def rateLimitCooldownMs : Int := 3600000

/-- Account update of the failure path (lines 215 and 230-235): release
the in-use flag, bump the failure counter, record the error, and set the
cooldown to now + 1h on a rate-limit message - or overwrite it with null
otherwise. -/
def failAccountUpdate (now : Int) (errMsg : Text) (a : GeminiAccount) :
    GeminiAccount :=
  { a with
    isCurrentlyInUse := false,
    failureCount := a.failureCount + 1,
    lastError := some errMsg,
    rateLimitedUntil :=
      if isRateLimitMsg errMsg then some (now + rateLimitCooldownMs) else none }

/-- Lines 157-161. -/
def markProcessing (accId : Nat) (t : QueueItem) : QueueItem :=
  { t with status := TaskStatus.processing, assignedAccountId := some accId }

/-- Lines 162-165. -/
def markInUse (now : Int) (a : GeminiAccount) : GeminiAccount :=
  { a with isCurrentlyInUse := true, lastUsedAt := some now }

/-- Lines 196-199. -/
def successTaskUpdate (t : QueueItem) : QueueItem :=
  { t with status := TaskStatus.completed }

/-- Lines 201-205. -/
def successAccountUpdate (a : GeminiAccount) : GeminiAccount :=
  { a with
    isCurrentlyInUse := false,
    totalExtractionsCount := a.totalExtractionsCount + 1,
    successCount := a.successCount + 1 }

/-- State touched by one worker: its task row, its account row, and the
scraper bookkeeping. -/
structure WorkerRun where
  task : QueueItem
  account : GeminiAccount
  scraperRegistered : Bool
  scraperClosed : Bool
  kgSaved : Bool
deriving DecidableEq

/-- The successive awaited operations of the try block of processTask,
after the cancellation pre-check: 0 mark task processing, 1 mark account
in use, 2 the scraper session (init/login/extract), 3 persist the
knowledge graph, 4 mark task completed, 5 release the account with
success counters. -/
def tryStep (now : Int) (k : Nat) (w : WorkerRun) : WorkerRun :=
  match k with
  | 0 => { w with task := markProcessing w.account.id w.task }
  | 1 => { w with account := markInUse now w.account }
  | 2 => w
  | 3 => { w with kgSaved := true }
  | 4 => { w with task := successTaskUpdate w.task }
  | 5 => { w with account := successAccountUpdate w.account }
  | _ => w

/-- Run the try block. `failAt = some k` models the awaited operation at
step k throwing (scraper failures, cancellation-forced session closure,
or a rejected storage call); steps before it take effect, the rest do
not. Returns the state and whether an exception escaped the block. -/
def runTry (now : Int) (failAt : Option Nat) (w : WorkerRun) : WorkerRun × Bool :=
  let n := match failAt with | some k => min k 6 | none => 6
  (((List.range n).foldl (fun st k => tryStep now k st) w),
    match failAt with | some k => decide (k < 6) | none => false)

/-- The catch block (lines 213-274): update the task by the retry rule
and the account by the failure rule (log writes are observability
only). -/
def catchBlock (now : Int) (errMsg : Text) (w : WorkerRun) : WorkerRun :=
  { w with
    task := failTaskUpdate errMsg w.task,
    account := failAccountUpdate now errMsg w.account }

/-- The finally block (lines 275-286): deregister and close the scraper.
It does not touch the task row or the account row. -/
def finallyBlock (w : WorkerRun) : WorkerRun :=
  { w with scraperRegistered := false, scraperClosed := true }

def cancelledBeforeStartMsg : Text :=
  "Task cancelled before processing started".toList

/-- processTask in full: register the scraper, honour the cancellation
pre-check (lines 148-154), run the try block, divert to the catch block
when a step throws, and always run the finally block. -/
def processTask (now : Int) (cancelled : Bool) (failAt : Option Nat)
    (errMsg : Text) (w0 : WorkerRun) : WorkerRun :=
  let w1 := { w0 with scraperRegistered := true }
  if cancelled then
    finallyBlock
      { w1 with
        task := { w1.task with
          status := TaskStatus.cancelled,
          errorMessage := some cancelledBeforeStartMsg } }
  else
    let r := runTry now failAt w1
    finallyBlock (if r.2 then catchBlock now errMsg r.1 else r.1)

/-! ### Embedding of QueueProcessor.cancelTask (src/unnamed/part_008,
lines 29-66). -/

structure ProcessorState where
  runningScrapers : List Nat
  cancelledTasks : List Nat
deriving DecidableEq

def cancelledByUserMsg : Text := "Task cancelled by user".toList

structure CancelResult where
  proc : ProcessorState
  tasks : List QueueItem
  scraperClosed : Bool
  returned : Bool
deriving DecidableEq

/-- `storage.updateQueueItem(taskId, { status, errorMessage })` applied
to the task table. -/
def updateTaskStatus (taskId : Nat) (st : TaskStatus) (msg : Text)
    (tasks : List QueueItem) : List QueueItem :=
  tasks.map (fun t =>
    if t.id = taskId then { t with status := st, errorMessage := some msg } else t)

/-- `storage.getQueueItemById`. -/
def getQueueItemById (taskId : Nat) (tasks : List QueueItem) : Option QueueItem :=
  tasks.find? (fun t => t.id = taskId)

/-- cancelTask: always add the id to the cancelled set; when a scraper is
registered for the task, close it and mark the task cancelled; otherwise
mark it cancelled only when its stored status is processing, and return
false (no status change) in every other case. -/
def cancelTask (ps : ProcessorState) (tasks : List QueueItem) (taskId : Nat) :
    CancelResult :=
  let ps1 := { ps with cancelledTasks := ps.cancelledTasks ++ [taskId] }
  if ps1.runningScrapers.contains taskId then
    { proc := ps1,
      tasks := updateTaskStatus taskId TaskStatus.cancelled cancelledByUserMsg tasks,
      scraperClosed := true,
      returned := true }
  else
    match getQueueItemById taskId tasks with
    | some t =>
      if t.status = TaskStatus.processing then
        { proc := ps1,
          tasks := updateTaskStatus taskId TaskStatus.cancelled cancelledByUserMsg tasks,
          scraperClosed := false,
          returned := true }
      else
        { proc := ps1, tasks := tasks, scraperClosed := false, returned := false }
    | none =>
      { proc := ps1, tasks := tasks, scraperClosed := false, returned := false }

/-! ### Interleaving model of the claim/mark steps of
QueueProcessor.processLoop (src/unnamed/part_008, lines 109-128).

The loop body awaits `storage.getAvailableAccount()` for each fetched
task and then launches `processTask`, which sets the account's
`isCurrentlyInUse` flag in a later awaited call (line 162-165). The
selection therefore does not modify the account table; only the
launched worker's mark step does, and other loop iterations may run
between the two. `claim` models one loop iteration picking an account
for a fresh task id; `mark` models a launched worker reaching its
`updateAccount(isCurrentlyInUse: true)` call. -/

structure SchedState where
  accounts : List GeminiAccount
  assigned : List (Nat × Nat)
  marked : List Nat
deriving DecidableEq

def setInUse (accId : Nat) (accs : List GeminiAccount) : List GeminiAccount :=
  accs.map (fun a => if a.id = accId then { a with isCurrentlyInUse := true } else a)

def clearInUse (accId : Nat) (accs : List GeminiAccount) : List GeminiAccount :=
  accs.map (fun a => if a.id = accId then { a with isCurrentlyInUse := false } else a)

inductive LoopStep (now : Int) : SchedState → SchedState → Prop
  | claim (s : SchedState) (t : Nat) (a : GeminiAccount)
      (h : getAvailableAccount now s.accounts = some a)
      (ht : ∀ p ∈ s.assigned, p.1 ≠ t) :
      LoopStep now s { s with assigned := s.assigned ++ [(t, a.id)] }
  | mark (s : SchedState) (t accId : Nat)
      (h : (t, accId) ∈ s.assigned) (hm : t ∉ s.marked) :
      LoopStep now s
        { s with accounts := setInUse accId s.accounts, marked := s.marked ++ [t] }

inductive LoopReach (now : Int) : SchedState → SchedState → Prop
  | refl (s : SchedState) : LoopReach now s s
  | step {s s' s'' : SchedState} :
      LoopReach now s s' → LoopStep now s' s'' → LoopReach now s s''

/-- The amended scheduler: selection and the setting of the exclusivity
flag fused into a single atomic step (what the spec prescribes), plus
worker completion releasing the account. -/
inductive AtomicStep (now : Int) : SchedState → SchedState → Prop
  | claim (s : SchedState) (t : Nat) (a : GeminiAccount)
      (h : getAvailableAccount now s.accounts = some a)
      (ht : ∀ p ∈ s.assigned, p.1 ≠ t) :
      AtomicStep now s
        { s with
          accounts := setInUse a.id s.accounts,
          assigned := s.assigned ++ [(t, a.id)] }
  | finish (s : SchedState) (t accId : Nat)
      (h : (t, accId) ∈ s.assigned) :
      AtomicStep now s
        { s with
          accounts := clearInUse accId s.accounts,
          assigned := s.assigned.filter (fun p => p.1 ≠ t) }

inductive AtomicReach (now : Int) : SchedState → SchedState → Prop
  | refl (s : SchedState) : AtomicReach now s s
  | step {s s' s'' : SchedState} :
      AtomicReach now s s' → AtomicStep now s' s'' → AtomicReach now s s''

/-! ### Per-task lifecycle transition system, for the retry invariants.
The reachable statuses and retry counts of one queue row under the
operations the processor performs on it: being picked up (only when
queued, via getPendingQueueItem's status filter), succeeding, failing
(the catch-block update), or being cancelled. -/

inductive TaskStep : QueueItem → QueueItem → Prop
  | start (t : QueueItem) (accId : Nat) (h : t.status = TaskStatus.queued) :
      TaskStep t (markProcessing accId t)
  | succeed (t : QueueItem) (h : t.status = TaskStatus.processing) :
      TaskStep t (successTaskUpdate t)
  | fail (t : QueueItem) (e : Text) (h : t.status = TaskStatus.processing) :
      TaskStep t (failTaskUpdate e t)
  | cancel (t : QueueItem) (msg : Text)
      (h : t.status = TaskStatus.queued ∨ t.status = TaskStatus.processing) :
      TaskStep t { t with status := TaskStatus.cancelled, errorMessage := some msg }

inductive TaskReach : QueueItem → QueueItem → Prop
  | refl (t : QueueItem) : TaskReach t t
  | step {t t' t'' : QueueItem} :
      TaskReach t t' → TaskStep t' t'' → TaskReach t t''

/-! ### Claim theorems -/

/-- Helper: what a successful getAvailableAccount guarantees about the
returned row. -/
theorem getAvailableAccount_sound {now : Int} {accounts : List GeminiAccount}
    {a : GeminiAccount} (h : getAvailableAccount now accounts = some a) :
    a ∈ accounts ∧ accountAvailable now a = true := by
  unfold getAvailableAccount at h
  have hm : a ∈ accounts.filter (accountAvailable now) := List.mem_of_mem_head? h
  exact ⟨List.mem_of_mem_filter hm, List.of_mem_filter hm⟩

/-- Claim C4 (amended): an account is returned by getAvailableAccount
only when it is active, not in use, and its rateLimitedUntil is null or
strictly earlier than now; at an instant less than or equal to the
deadline - in particular at the deadline itself - the account is not
available. -/
theorem availability_predicate_strict :
    (∀ (now : Int) (accounts : List GeminiAccount) (a : GeminiAccount),
        getAvailableAccount now accounts = some a →
        a ∈ accounts ∧ a.isActive = true ∧ a.isCurrentlyInUse = false ∧
          (a.rateLimitedUntil = none ∨
            ∃ tl, a.rateLimitedUntil = some tl ∧ tl < now)) ∧
    (∀ (now : Int) (a : GeminiAccount) (tl : Int),
        a.rateLimitedUntil = some tl → now ≤ tl →
        accountAvailable now a = false) := by
  constructor
  · intro now accounts a h
    obtain ⟨hmem, havail⟩ := getAvailableAccount_sound h
    refine ⟨hmem, ?_⟩
    unfold accountAvailable at havail
    rcases hrl : a.rateLimitedUntil with _ | tl
    · rw [hrl] at havail
      simp only [Bool.and_eq_true, Bool.not_eq_true'] at havail
      exact ⟨havail.1.1, havail.1.2, Or.inl rfl⟩
    · rw [hrl] at havail
      simp only [Bool.and_eq_true, Bool.not_eq_true', decide_eq_true_eq] at havail
      exact ⟨havail.1.1, havail.1.2, Or.inr ⟨tl, rfl, havail.2⟩⟩
  · intro now a tl hrl hle
    unfold accountAvailable
    rw [hrl]
    simp only [Bool.and_eq_false_iff]
    right
    simpa using hle

def exLimitedAcct : GeminiAccount :=
  { id := 1, isActive := true, isCurrentlyInUse := false,
    rateLimitedUntil := some 100, lastUsedAt := none,
    totalExtractionsCount := 0, successCount := 0, failureCount := 0,
    lastError := none }

/-- Claim C4 counterexample: an active, free account whose
rateLimitedUntil deadline is exactly now is NOT selected - the query
uses a strict lt(rateLimitedUntil, now), so at the instant exactly equal
to the deadline the account does not count as available, contrary to the
claim. -/
theorem availability_boundary_counterexample :
    getAvailableAccount 100 [exLimitedAcct] = none ∧
    exLimitedAcct.isActive = true ∧
    exLimitedAcct.isCurrentlyInUse = false ∧
    exLimitedAcct.rateLimitedUntil = some 100 := by
  refine ⟨?_, rfl, rfl, rfl⟩
  decide

def exFreeAcct : GeminiAccount :=
  { id := 1, isActive := true, isCurrentlyInUse := false,
    rateLimitedUntil := some 50, lastUsedAt := none,
    totalExtractionsCount := 0, successCount := 0, failureCount := 0,
    lastError := none }

/-- Witness for C4: the amended theorem applied at a concrete account
whose cooldown elapsed (50 < 100), and at the boundary instant. -/
theorem availability_predicate_strict_witness :
    (exFreeAcct ∈ [exFreeAcct] ∧ exFreeAcct.isActive = true ∧
      exFreeAcct.isCurrentlyInUse = false ∧
      (exFreeAcct.rateLimitedUntil = none ∨
        ∃ tl, exFreeAcct.rateLimitedUntil = some tl ∧ tl < 100)) ∧
    accountAvailable 100 exLimitedAcct = false :=
  ⟨availability_predicate_strict.1 100 [exFreeAcct] exFreeAcct (by decide),
   availability_predicate_strict.2 100 exLimitedAcct 100 rfl (by decide)⟩

/-- Invariant of one task row under the processor's operations. -/
def taskInv (t : QueueItem) : Prop :=
  t.retryCount ≤ maxRetries ∧
    ((t.status = TaskStatus.queued ∨ t.status = TaskStatus.processing) →
      t.retryCount < maxRetries)

theorem taskInv_step {t t' : QueueItem} (h : TaskStep t t') (ht : taskInv t) :
    taskInv t' := by
  obtain ⟨hle, hlt⟩ := ht
  cases h with
  | start accId hq =>
    exact ⟨hle, fun _ => hlt (Or.inl hq)⟩
  | succeed hp =>
    refine ⟨hle, ?_⟩
    intro hcase
    simp [successTaskUpdate] at hcase
  | fail e hp =>
    have hr : t.retryCount < maxRetries := hlt (Or.inr hp)
    constructor
    · show t.retryCount + 1 ≤ maxRetries
      omega
    · intro hcase
      show t.retryCount + 1 < maxRetries
      by_cases hretry : t.retryCount + 1 < maxRetries
      · exact hretry
      · exfalso
        have hst : (failTaskUpdate e t).status = TaskStatus.failed := by
          show (if t.retryCount + 1 < maxRetries then TaskStatus.queued
              else TaskStatus.failed) = TaskStatus.failed
          rw [if_neg hretry]
        rcases hcase with hc | hc <;> rw [hst] at hc <;>
          exact TaskStatus.noConfusion hc
  | cancel msg hqp =>
    refine ⟨hle, ?_⟩
    intro hcase
    rcases hcase with hc | hc <;> simp at hc

theorem taskInv_reach {t0 t : QueueItem} (h : TaskReach t0 t) (ht : taskInv t0) :
    taskInv t := by
  induction h with
  | refl => exact ht
  | step _ hstep ih => exact taskInv_step hstep ih

/-- Claim C3: on a worker failure the retry count is incremented by one
and the task is requeued exactly when the incremented count is still
below maxRetries (otherwise marked failed); across every step the retry
count never decreases; and from a fresh queued task every reachable
state keeps retryCount at or below maxRetries and, once it reaches
maxRetries, the status is never queued. -/
theorem retry_count_invariants :
    (∀ (t : QueueItem) (e : Text),
        (failTaskUpdate e t).retryCount = t.retryCount + 1 ∧
        (failTaskUpdate e t).status =
          (if t.retryCount + 1 < maxRetries then TaskStatus.queued
           else TaskStatus.failed)) ∧
    (∀ t t' : QueueItem, TaskStep t t' → t.retryCount ≤ t'.retryCount) ∧
    (∀ t0 t : QueueItem, t0.status = TaskStatus.queued → t0.retryCount = 0 →
        TaskReach t0 t →
        t.retryCount ≤ maxRetries ∧
        (t.retryCount = maxRetries → t.status ≠ TaskStatus.queued)) := by
  refine ⟨?_, ?_, ?_⟩
  · intro t e
    exact ⟨rfl, rfl⟩
  · intro t t' h
    cases h with
    | start accId hq => exact Nat.le_refl _
    | succeed hp => exact Nat.le_refl _
    | fail e hp => exact Nat.le_succ _
    | cancel msg hqp => exact Nat.le_refl _
  · intro t0 t hq hr hreach
    have h0 : taskInv t0 := by
      refine ⟨by omega, fun _ => by simp [maxRetries]; omega⟩
    have hinv := taskInv_reach hreach h0
    refine ⟨hinv.1, ?_⟩
    intro hmax hstatus
    have := hinv.2 (Or.inl hstatus)
    omega

def exFreshTask : QueueItem :=
  { id := 1, status := TaskStatus.queued, priority := 0, createdAt := 0,
    retryCount := 0, errorMessage := none, assignedAccountId := none }

/-- Witness for C3: the theorem applied along a concrete run
queued -> processing -> failure, whose hypotheses hold by rfl. -/
theorem retry_count_invariants_witness :
    ((failTaskUpdate [] exFreshTask).retryCount = exFreshTask.retryCount + 1) ∧
    ((markProcessing 9 exFreshTask).retryCount ≤
      (failTaskUpdate [] (markProcessing 9 exFreshTask)).retryCount) ∧
    ((failTaskUpdate [] (markProcessing 9 exFreshTask)).retryCount ≤ maxRetries ∧
      ((failTaskUpdate [] (markProcessing 9 exFreshTask)).retryCount = maxRetries →
        (failTaskUpdate [] (markProcessing 9 exFreshTask)).status ≠
          TaskStatus.queued)) := by
  refine ⟨(retry_count_invariants.1 exFreshTask []).1, ?_, ?_⟩
  · exact retry_count_invariants.2.1 _ _
      (TaskStep.fail (markProcessing 9 exFreshTask) [] rfl)
  · exact retry_count_invariants.2.2 exFreshTask _ rfl rfl
      (TaskReach.step
        (TaskReach.step (TaskReach.refl exFreshTask)
          (TaskStep.start exFreshTask 9 rfl))
        (TaskStep.fail (markProcessing 9 exFreshTask) [] rfl))

/-- Claim C10: on a failure whose message does not indicate
rate-limiting, the account update writes rateLimitedUntil = null
(clearing any prior cooldown); it touches exactly the in-use flag, the
failure counter, and lastError, while every other modelled field is
unchanged. -/
theorem fail_account_update_frame :
    ∀ (now : Int) (msg : Text) (a : GeminiAccount),
      isRateLimitMsg msg = false →
      (failAccountUpdate now msg a).rateLimitedUntil = none ∧
      (failAccountUpdate now msg a).isCurrentlyInUse = false ∧
      (failAccountUpdate now msg a).failureCount = a.failureCount + 1 ∧
      (failAccountUpdate now msg a).lastError = some msg ∧
      (failAccountUpdate now msg a).id = a.id ∧
      (failAccountUpdate now msg a).isActive = a.isActive ∧
      (failAccountUpdate now msg a).successCount = a.successCount ∧
      (failAccountUpdate now msg a).totalExtractionsCount =
        a.totalExtractionsCount ∧
      (failAccountUpdate now msg a).lastUsedAt = a.lastUsedAt := by
  intro now msg a h
  refine ⟨?_, rfl, rfl, rfl, rfl, rfl, rfl, rfl, rfl⟩
  show (if isRateLimitMsg msg then some (now + rateLimitCooldownMs) else none) = none
  rw [h]
  rfl

def exTimeoutMsg : Text := "Element not found: timeout 15000ms".toList

/-- Witness for C10: the frame theorem applied to a cooled-down account
and a non-rate-limit error message; the update clears the standing
cooldown. -/
theorem fail_account_update_frame_witness :
    (failAccountUpdate 200 exTimeoutMsg exLimitedAcct).rateLimitedUntil = none ∧
    (failAccountUpdate 200 exTimeoutMsg exLimitedAcct).isCurrentlyInUse = false ∧
    (failAccountUpdate 200 exTimeoutMsg exLimitedAcct).failureCount =
      exLimitedAcct.failureCount + 1 ∧
    (failAccountUpdate 200 exTimeoutMsg exLimitedAcct).lastError =
      some exTimeoutMsg ∧
    (failAccountUpdate 200 exTimeoutMsg exLimitedAcct).id = exLimitedAcct.id ∧
    (failAccountUpdate 200 exTimeoutMsg exLimitedAcct).isActive =
      exLimitedAcct.isActive ∧
    (failAccountUpdate 200 exTimeoutMsg exLimitedAcct).successCount =
      exLimitedAcct.successCount ∧
    (failAccountUpdate 200 exTimeoutMsg exLimitedAcct).totalExtractionsCount =
      exLimitedAcct.totalExtractionsCount ∧
    (failAccountUpdate 200 exTimeoutMsg exLimitedAcct).lastUsedAt =
      exLimitedAcct.lastUsedAt :=
  fail_account_update_frame 200 exTimeoutMsg exLimitedAcct (by decide)

def exTaskA : QueueItem :=
  { id := 1, status := TaskStatus.queued, priority := 5, createdAt := 1,
    retryCount := 0, errorMessage := none, assignedAccountId := none }

def exTaskB : QueueItem :=
  { id := 2, status := TaskStatus.queued, priority := 5, createdAt := 2,
    retryCount := 0, errorMessage := none, assignedAccountId := none }

def exTaskC : QueueItem :=
  { id := 3, status := TaskStatus.queued, priority := 1, createdAt := 0,
    retryCount := 0, errorMessage := none, assignedAccountId := none }

/-- Claim C2, evaluated at the failing input: with two queued tasks of
equal priority 5 where task A arrived at t=1 before task B at t=2, the
pending-task query returns B, the LATER arrival - the source orders by
desc(createdAt), not asc, so ties are broken newest-first instead of the
specified FIFO. The returned task does have maximal priority. -/
theorem pending_query_breaks_fifo :
    getPendingQueueItem [exTaskA, exTaskB, exTaskC] = some exTaskB ∧
    exTaskA.priority = exTaskB.priority ∧
    exTaskA.createdAt < exTaskB.createdAt ∧
    exTaskB.priority = 5 := by
  refine ⟨by decide, rfl, by decide, rfl⟩

/-- Claim C7 (amended): cancelTask closes the scraper and marks the task
Cancelled when a worker is running for it; with no running worker it
marks the task Cancelled only when its stored status is Processing; for
a merely queued task it changes no task row, returns false, and only
records the id in the cancelled set - the task is then finalised as
Cancelled by the worker's pre-start check if it is ever picked up, and
that path never touches the account. -/
theorem cancel_task_spec :
    (∀ (ps : ProcessorState) (tasks : List QueueItem) (taskId : Nat),
        ps.runningScrapers.contains taskId = true →
        (cancelTask ps tasks taskId).scraperClosed = true ∧
        (cancelTask ps tasks taskId).tasks =
          updateTaskStatus taskId TaskStatus.cancelled cancelledByUserMsg tasks ∧
        (cancelTask ps tasks taskId).returned = true) ∧
    (∀ (ps : ProcessorState) (tasks : List QueueItem) (taskId : Nat)
        (t : QueueItem),
        ps.runningScrapers.contains taskId = false →
        getQueueItemById taskId tasks = some t →
        t.status = TaskStatus.processing →
        (cancelTask ps tasks taskId).scraperClosed = false ∧
        (cancelTask ps tasks taskId).tasks =
          updateTaskStatus taskId TaskStatus.cancelled cancelledByUserMsg tasks ∧
        (cancelTask ps tasks taskId).returned = true) ∧
    (∀ (ps : ProcessorState) (tasks : List QueueItem) (taskId : Nat)
        (t : QueueItem),
        ps.runningScrapers.contains taskId = false →
        getQueueItemById taskId tasks = some t →
        t.status ≠ TaskStatus.processing →
        (cancelTask ps tasks taskId).tasks = tasks ∧
        (cancelTask ps tasks taskId).returned = false ∧
        taskId ∈ (cancelTask ps tasks taskId).proc.cancelledTasks) ∧
    (∀ (now : Int) (failAt : Option Nat) (e : Text) (w0 : WorkerRun),
        (processTask now true failAt e w0).task.status = TaskStatus.cancelled ∧
        (processTask now true failAt e w0).account = w0.account) := by
  refine ⟨?_, ?_, ?_, ?_⟩
  · intro ps tasks taskId h
    unfold cancelTask
    simp only [h, if_true]
    exact ⟨trivial, trivial, trivial⟩
  · intro ps tasks taskId t hrun hget hst
    unfold cancelTask
    simp only [hrun, Bool.false_eq_true, if_false, hget, hst, if_true]
    exact ⟨trivial, trivial, trivial⟩
  · intro ps tasks taskId t hrun hget hst
    unfold cancelTask
    simp only [hrun, Bool.false_eq_true, if_false, hget, if_neg hst]
    refine ⟨trivial, trivial, ?_⟩
    simp
  · intro now failAt e w0
    exact ⟨rfl, rfl⟩

def exQueuedTask : QueueItem :=
  { id := 7, status := TaskStatus.queued, priority := 0, createdAt := 0,
    retryCount := 0, errorMessage := none, assignedAccountId := none }

/-- Claim C7 counterexample: cancelling a merely queued task (id 7, no
running worker) does NOT mark it Cancelled - the stored row keeps status
queued and cancelTask returns false, contrary to the claim that a queued
task is marked Cancelled. -/
theorem cancel_queued_task_unchanged :
    (cancelTask ⟨[], []⟩ [exQueuedTask] 7).tasks = [exQueuedTask] ∧
    exQueuedTask.status = TaskStatus.queued ∧
    (cancelTask ⟨[], []⟩ [exQueuedTask] 7).returned = false := by
  refine ⟨by decide, rfl, by decide⟩

def exRunWorker : WorkerRun :=
  { task := exQueuedTask, account := exFreeAcct, scraperRegistered := false,
    scraperClosed := false, kgSaved := false }

/-- Witness for C7: the amended theorem applied at concrete states - a
running task (id 7 registered), a stale processing row without a worker,
a merely queued row, and a cancelled-before-start worker. -/
theorem cancel_task_spec_witness :
    ((cancelTask ⟨[7], []⟩ [exQueuedTask] 7).scraperClosed = true ∧
      (cancelTask ⟨[7], []⟩ [exQueuedTask] 7).tasks =
        updateTaskStatus 7 TaskStatus.cancelled cancelledByUserMsg [exQueuedTask] ∧
      (cancelTask ⟨[7], []⟩ [exQueuedTask] 7).returned = true) ∧
    ((cancelTask ⟨[], []⟩ [exQueuedTask] 7).tasks = [exQueuedTask] ∧
      (cancelTask ⟨[], []⟩ [exQueuedTask] 7).returned = false ∧
      7 ∈ (cancelTask ⟨[], []⟩ [exQueuedTask] 7).proc.cancelledTasks) ∧
    ((processTask 0 true none [] exRunWorker).task.status =
        TaskStatus.cancelled ∧
      (processTask 0 true none [] exRunWorker).account = exRunWorker.account) :=
  ⟨cancel_task_spec.1 ⟨[7], []⟩ [exQueuedTask] 7 (by decide),
   cancel_task_spec.2.2.1 ⟨[], []⟩ [exQueuedTask] 7 exQueuedTask (by decide)
     (by decide) (by decide),
   cancel_task_spec.2.2.2 0 none [] exRunWorker⟩

/-- The try block of processTask run to completion leaves the account
released with success counters bumped. -/
theorem runTry_success_account (now : Int) (w : WorkerRun) :
    (((List.range 6).foldl (fun st k => tryStep now k st) w)).account =
      successAccountUpdate (markInUse now w.account) := rfl

/-- Claim C8 (amended): the in-use flag is released on every outcome -
the success path and the catch path each clear it (for any step of the
try block that throws, including scraper failures forced by
cancellation), and the cancelled-before-start path never sets it. The
release is performed by those handlers, not by the finally block: the
guaranteed-execution cleanup only closes the scraper and leaves the
account untouched. -/
theorem in_use_released_on_all_paths :
    (∀ (now : Int) (failAt : Option Nat) (e : Text) (w0 : WorkerRun),
        (processTask now false failAt e w0).account.isCurrentlyInUse = false) ∧
    (∀ (now : Int) (failAt : Option Nat) (e : Text) (w0 : WorkerRun),
        (processTask now true failAt e w0).account = w0.account) ∧
    (∀ w : WorkerRun, (finallyBlock w).account = w.account) := by
  refine ⟨?_, ?_, ?_⟩
  · intro now failAt e w0
    cases failAt with
    | none =>
      show (successAccountUpdate (markInUse now w0.account)).isCurrentlyInUse = false
      rfl
    | some k =>
      rcases Nat.lt_or_ge k 6 with hk | hk
      · have hthrew : (runTry now (some k)
            { w0 with scraperRegistered := true }).2 = true := by
          simp [runTry, hk]
        unfold processTask
        simp only [if_neg (Bool.false_ne_true), hthrew, if_true]
        rfl
      · have hthrew : (runTry now (some k)
            { w0 with scraperRegistered := true }).2 = false := by
          simp only [runTry, decide_eq_false_iff_not]
          omega
        have hn : min k 6 = 6 := by omega
        unfold processTask
        simp only [if_neg (Bool.false_ne_true), hthrew, if_false, Bool.false_eq_true]
        show (finallyBlock ((runTry now (some k)
          { w0 with scraperRegistered := true }).1)).account.isCurrentlyInUse = false
        unfold runTry
        simp only [hn, runTry_success_account]
        rfl
  · intro now failAt e w0
    rfl
  · intro w
    rfl

def exBusyAcct : GeminiAccount :=
  { id := 4, isActive := true, isCurrentlyInUse := true,
    rateLimitedUntil := none, lastUsedAt := none, totalExtractionsCount := 0,
    successCount := 0, failureCount := 0, lastError := none }

def exBusyWorker : WorkerRun :=
  { task := exQueuedTask, account := exBusyAcct, scraperRegistered := true,
    scraperClosed := false, kgSaved := false }

/-- Claim C8 counterexample: the guaranteed-execution cleanup block of
processTask (its finally, lines 275-286) does NOT release the in-use
flag - run on a worker state whose account is in use, it leaves the
account unchanged with the flag still set; the release lives in the
success and catch handlers instead, so it is not performed "via a
guaranteed-execution cleanup block" as the claim states. -/
theorem finally_block_does_not_release :
    (finallyBlock exBusyWorker).account.isCurrentlyInUse = true ∧
    (finallyBlock exBusyWorker).account = exBusyWorker.account ∧
    exBusyWorker.account.isCurrentlyInUse = true :=
  ⟨rfl, rfl, rfl⟩

/-- Claim C9 (amended): parsing of the selected candidate attempts the
strict parse first and returns its result without consulting the repair
when it succeeds; exactly when the strict parse fails, the repair is
attempted and its re-parse result returned on success; exactly when both
attempts fail, a hard error is raised whose message combines the two
failure messages - the raw candidate text is not attached to the error
object (its rawResponse field, which the queue processor's logger looks
for, is unset). -/
theorem parse_with_repair_spec {J : Type} (jsonParse : Text → Except Text J)
    (jsonrepair : Text → Except Text Text) (best : Text) :
    (∀ kg, jsonParse best = Except.ok kg →
        parseWithRepair jsonParse jsonrepair best = Except.ok kg) ∧
    (∀ e1 kg, jsonParse best = Except.error e1 →
        (jsonrepair best).bind jsonParse = Except.ok kg →
        parseWithRepair jsonParse jsonrepair best = Except.ok kg) ∧
    (∀ e1 e2, jsonParse best = Except.error e1 →
        (jsonrepair best).bind jsonParse = Except.error e2 →
        parseWithRepair jsonParse jsonrepair best =
          Except.error ⟨parseFailMsg e1 e2, none⟩) := by
  refine ⟨?_, ?_, ?_⟩
  · intro kg h
    unfold parseWithRepair
    rw [h]
  · intro e1 kg h1 h2
    unfold parseWithRepair
    rw [h1, h2]
  · intro e1 e2 h1 h2
    unfold parseWithRepair
    rw [h1, h2]

def exGoodJson : Text := "\x7b\x22nodes\x22:[]\x7d".toList

def exParse : Text → Except Text Nat := fun t =>
  if t = exGoodJson then Except.ok 1
  else Except.error "Unexpected token".toList

def exRepairTo : Text → Except Text Text := fun _ => Except.ok exGoodJson

def exRepairFail : Text → Except Text Text := fun _ =>
  Except.error "repair gave up".toList

def exBadCandidate : Text := "RAW GEMINI CANDIDATE 12345".toList

/-- Witness for C9: the amended theorem applied with concrete parser and
repair functions - a strict-parse success, a repair rescue, and a
double failure. -/
theorem parse_with_repair_spec_witness :
    parseWithRepair exParse exRepairTo exGoodJson = Except.ok 1 ∧
    parseWithRepair exParse exRepairTo exBadCandidate = Except.ok 1 ∧
    parseWithRepair exParse exRepairFail exBadCandidate =
      Except.error ⟨parseFailMsg "Unexpected token".toList
        "repair gave up".toList, none⟩ :=
  ⟨(parse_with_repair_spec exParse exRepairTo exGoodJson).1 1 rfl,
   (parse_with_repair_spec exParse exRepairTo exBadCandidate).2.1
     "Unexpected token".toList 1 rfl rfl,
   (parse_with_repair_spec exParse exRepairFail exBadCandidate).2.2
     "Unexpected token".toList "repair gave up".toList rfl rfl⟩

/-- Claim C9 counterexample: when both the strict parse and the repair
fail, the raised hard error does not carry the raw candidate text - its
rawResponse field is none and its message (the two combined failure
messages) does not contain the candidate - contrary to the claim that
the hard error carries the raw candidate text for diagnostics. -/
theorem parse_error_lacks_raw_text :
    parseWithRepair exParse exRepairFail exBadCandidate =
      Except.error ⟨parseFailMsg "Unexpected token".toList
        "repair gave up".toList, none⟩ ∧
    hasSubstr (parseFailMsg "Unexpected token".toList "repair gave up".toList)
      exBadCandidate = false := by
  refine ⟨rfl, by decide⟩

def schedInit : SchedState :=
  { accounts := [exFreeAcct], assigned := [], marked := [] }

def schedS1 : SchedState :=
  { accounts := [exFreeAcct], assigned := [(1, 1)], marked := [] }

def schedS2 : SchedState :=
  { accounts := [exFreeAcct], assigned := [(1, 1), (2, 1)], marked := [] }

def schedBad : SchedState :=
  { accounts := setInUse 1 [exFreeAcct], assigned := [(1, 1), (2, 1)],
    marked := [1] }

/-- Claim C1 counterexample: because getAvailableAccount does not set
the exclusivity flag (processTask sets it in a later step), the loop can
claim the same account for two different tasks before either worker
marks it. The trace claim(task 1) - claim(task 2) - mark(task 1) is
reachable from a single-account pool and ends with account 1 having
isCurrentlyInUse = true while assigned to BOTH running workers,
violating the claimed mutual-exclusion invariant. -/
theorem double_claim_reachable :
    LoopReach 100 schedInit schedBad ∧
    schedBad.assigned = [(1, 1), (2, 1)] ∧
    schedBad.accounts = [{ exFreeAcct with isCurrentlyInUse := true }] := by
  have h1 : LoopStep 100 schedInit schedS1 :=
    LoopStep.claim schedInit 1 exFreeAcct (by decide) (by simp [schedInit])
  have h2 : LoopStep 100 schedS1 schedS2 :=
    LoopStep.claim schedS1 2 exFreeAcct (by decide) (by decide)
  have h3 : LoopStep 100 schedS2 schedBad :=
    LoopStep.mark schedS2 1 1 (by decide) (by simp [schedS2])
  exact ⟨LoopReach.step (LoopReach.step (LoopReach.step
    (LoopReach.refl schedInit) h1) h2) h3, by decide, by decide⟩

theorem setInUse_map_id (i : Nat) (l : List GeminiAccount) :
    (setInUse i l).map (fun a => a.id) = l.map (fun a => a.id) := by
  unfold setInUse
  rw [List.map_map]
  apply List.map_congr_left
  intro a _
  by_cases h : a.id = i <;> simp [h]

theorem clearInUse_map_id (i : Nat) (l : List GeminiAccount) :
    (clearInUse i l).map (fun a => a.id) = l.map (fun a => a.id) := by
  unfold clearInUse
  rw [List.map_map]
  apply List.map_congr_left
  intro a _
  by_cases h : a.id = i <;> simp [h]

/-- Scheduler invariant for the atomic-claim system: account ids are
distinct, every assigned account is an in-use row of the pool, and no
two running workers share an account. -/
def schedInv (s : SchedState) : Prop :=
  (s.accounts.map (fun a => a.id)).Nodup ∧
  (∀ p ∈ s.assigned,
    ∃ b ∈ s.accounts, b.id = p.2 ∧ b.isCurrentlyInUse = true) ∧
  s.assigned.Pairwise (fun p q => p.2 ≠ q.2)

theorem schedInv_step {now : Int} {s s' : SchedState}
    (h : AtomicStep now s s') (hs : schedInv s) : schedInv s' := by
  obtain ⟨hnd, hin, hpw⟩ := hs
  cases h with
  | claim t a ha ht =>
    obtain ⟨hmem, havail⟩ := getAvailableAccount_sound ha
    have hafree : a.isCurrentlyInUse = false := by
      unfold accountAvailable at havail
      simp only [Bool.and_eq_true, Bool.not_eq_true'] at havail
      exact havail.1.2
    have hkey : ∀ p ∈ s.assigned, p.2 ≠ a.id := by
      intro p hp heq
      obtain ⟨b, hbmem, hbid, hbuse⟩ := hin p hp
      have hba : b = a :=
        List.inj_on_of_nodup_map hnd hbmem hmem (by rw [hbid, heq])
      rw [hba, hafree] at hbuse
      exact Bool.noConfusion hbuse
    refine ⟨?_, ?_, ?_⟩
    · rw [setInUse_map_id]
      exact hnd
    · intro p hp
      rcases List.mem_append.mp hp with hold | hnew
      · obtain ⟨b, hbmem, hbid, hbuse⟩ := hin p hold
        refine ⟨if b.id = a.id then { b with isCurrentlyInUse := true } else b,
          ?_, ?_, ?_⟩
        · exact List.mem_map_of_mem _ hbmem
        · by_cases hb : b.id = a.id
          · rw [if_pos hb]
            simpa using hbid
          · rw [if_neg hb]
            exact hbid
        · by_cases hb : b.id = a.id
          · rw [if_pos hb]
          · rw [if_neg hb]
            exact hbuse
      · have hpe : p = (t, a.id) := by simpa using hnew
        refine ⟨{ a with isCurrentlyInUse := true }, ?_, ?_, rfl⟩
        · have := List.mem_map_of_mem
            (fun b => if b.id = a.id then { b with isCurrentlyInUse := true }
              else b) hmem
          simpa [setInUse] using this
        · rw [hpe]
    · rw [List.pairwise_append]
      refine ⟨hpw, List.pairwise_singleton _ _, ?_⟩
      intro p hp q hq
      have hq1 : q = (t, a.id) := by simpa using hq
      rw [hq1]
      exact hkey p hp
  | finish t accId hmemA =>
    have hsym : Symmetric (fun p q : Nat × Nat => p.2 ≠ q.2) :=
      fun p q h => h.symm
    refine ⟨?_, ?_, ?_⟩
    · rw [clearInUse_map_id]
      exact hnd
    · intro p hp
      have hp' : p ∈ s.assigned ∧ p.1 ≠ t := by
        have := List.mem_filter.mp hp
        exact ⟨this.1, by simpa using this.2⟩
      have hne : p.2 ≠ accId := by
        have hpn : p ≠ (t, accId) := by
          intro he
          exact hp'.2 (by rw [he])
        exact hpw.forall hsym hp'.1 hmemA hpn
      obtain ⟨b, hbmem, hbid, hbuse⟩ := hin p hp'.1
      refine ⟨if b.id = accId then { b with isCurrentlyInUse := false } else b,
        List.mem_map_of_mem _ hbmem, ?_, ?_⟩
      · have hb : b.id ≠ accId := by rw [hbid]; exact hne
        rw [if_neg hb]
        exact hbid
      · have hb : b.id ≠ accId := by rw [hbid]; exact hne
        rw [if_neg hb]
        exact hbuse
    · exact hpw.sublist (List.filter_sublist _)

theorem schedInv_reach {now : Int} {s0 s : SchedState}
    (h : AtomicReach now s0 s) (h0 : schedInv s0) : schedInv s := by
  induction h with
  | refl => exact h0
  | step _ hstep ih => exact schedInv_step hstep ih

/-- Claim C1 (amended): getAvailableAccount alone only selects rows with
the exclusivity flag clear, but the source sets the flag in a separate
later step, so the double-claim trace of the counterexample is
reachable. When the claim IS atomic - selection and flag-set fused in
one step, as the spec prescribes - mutual exclusion holds: from any
initial pool with distinct account ids and no running workers, every
reachable state assigns no account to two concurrently-running
workers. -/
theorem atomic_claim_mutual_exclusion :
    ∀ (now : Int) (s0 s : SchedState),
      (s0.accounts.map (fun a => a.id)).Nodup →
      s0.assigned = [] →
      AtomicReach now s0 s →
      s.assigned.Pairwise (fun p q => p.2 ≠ q.2) := by
  intro now s0 s hnd hempty hreach
  have h0 : schedInv s0 := ⟨hnd, by simp [hempty], by simp [hempty]⟩
  exact (schedInv_reach hreach h0).2.2

def schedAtomic1 : SchedState :=
  { accounts := setInUse 1 [exFreeAcct], assigned := [(1, 1)], marked := [] }

/-- Witness for C1: the mutual-exclusion theorem applied to a concrete
atomic-claim trace of one step from a one-account pool. -/
theorem atomic_claim_mutual_exclusion_witness :
    schedAtomic1.assigned.Pairwise (fun p q => p.2 ≠ q.2) :=
  atomic_claim_mutual_exclusion 100 schedInit schedAtomic1 (by decide) rfl
    (AtomicReach.step (AtomicReach.refl schedInit)
      (AtomicStep.claim schedInit 1 exFreeAcct (by decide) (by simp [schedInit])))

theorem substrIdxFrom_append (pat xs ys zs : Text) :
    substrIdxFrom pat (xs ++ ys) zs =
      match substrIdxFrom pat xs (ys ++ zs) with
      | some i => some i
      | none => (substrIdxFrom pat ys zs).map (· + xs.length) := by
  induction xs with
  | nil =>
    simp only [List.nil_append, substrIdxFrom, List.length_nil]
    cases h : substrIdxFrom pat ys zs with
    | none => simp
    | some i => simp
  | cons c rest ih =>
    simp only [List.cons_append, substrIdxFrom, List.append_eq, List.append_assoc]
    rw [ih]
    by_cases h : List.isPrefixOf pat (c :: (rest ++ (ys ++ zs))) = true
    case pos => simp only [if_pos h]
    case neg =>
      simp only [if_neg h]
      cases hf : substrIdxFrom pat rest (ys ++ zs) with
      | some i => rfl
      | none =>
        cases hs : substrIdxFrom pat ys zs with
        | none => rfl
        | some j =>
          simp only [Option.map_none', Option.map_some', List.length_cons,
            Option.some.injEq]
          omega

theorem lastSubstrIdxFrom_append (pat xs ys zs : Text) :
    lastSubstrIdxFrom pat (xs ++ ys) zs =
      match lastSubstrIdxFrom pat ys zs with
      | some i => some (xs.length + i)
      | none => lastSubstrIdxFrom pat xs (ys ++ zs) := by
  induction xs with
  | nil =>
    simp only [List.nil_append, lastSubstrIdxFrom, List.length_nil]
    cases h : lastSubstrIdxFrom pat ys zs with
    | none => simp
    | some i => simp
  | cons c rest ih =>
    simp only [List.cons_append, lastSubstrIdxFrom, List.append_eq,
      List.append_assoc]
    rw [ih]
    cases hy : lastSubstrIdxFrom pat ys zs with
    | some i =>
      simp only [List.length_cons, Option.some.injEq]
      omega
    | none =>
      cases hf : lastSubstrIdxFrom pat rest (ys ++ zs) with
      | some i => rfl
      | none => rfl

theorem substrIdx_nil_pat (s : Text) : substrIdx [] s = some 0 := by
  cases s <;> rfl

theorem hasSubstr_append_left' {xs pat : Text}
    (hx : hasSubstr xs pat = true) (ys : Text) :
    hasSubstr (xs ++ ys) pat = true := by
  cases pat with
  | nil => unfold hasSubstr; rw [substrIdx_nil_pat]; rfl
  | cons h pt => exact hasSubstr_append_left hx ys

theorem substrIdx_cons_self_append (c : Char) (pt z : Text) :
    substrIdx (c :: pt) ((c :: pt) ++ z) = some 0 := by
  have h : (c :: pt).isPrefixOf ((c :: pt) ++ z) = true :=
    isPrefixOf_append_left
      (by rw [List.isPrefixOf_iff_prefix]) z
  simp only [List.cons_append, substrIdx, List.append_eq]
  rw [if_pos (by rw [← List.cons_append]; exact h)]

theorem dropWhile_id_of_no_ws {s : Text} (h : ∀ c ∈ s, isWs c = false) :
    s.dropWhile isWs = s := by
  cases s with
  | nil => rfl
  | cons c rest =>
    rw [List.dropWhile_cons_of_neg]
    rw [h c (List.mem_cons_self c rest)]
    simp

theorem jsTrim_id_of_no_ws {s : Text} (h : ∀ c ∈ s, isWs c = false) :
    jsTrim s = s := by
  unfold jsTrim
  rw [dropWhile_id_of_no_ws h,
    dropWhile_id_of_no_ws (fun c hc => h c (List.mem_reverse.mp hc)),
    List.reverse_reverse]

theorem fenceMatchAt_none_of_head {c : Char} {rest : Text}
    (h : c ≠ Char.ofNat 96) : fenceMatchAt (c :: rest) = none := by
  unfold fenceMatchAt
  have hfe : fence = Char.ofNat 96 :: [Char.ofNat 96, Char.ofNat 96] := by decide
  have hf : fence.isPrefixOf (c :: rest) = false := by
    rw [hfe, List.isPrefixOf_cons₂,
      beq_eq_false_iff_ne.mpr (fun he => h he.symm), Bool.false_and]
  rw [hf]
  simp

theorem mdScanAux_nil_of_no_tick : ∀ (fuel : Nat) (s : Text),
    (∀ c ∈ s, c ≠ Char.ofNat 96) → mdScanAux fuel s = [] := by
  intro fuel
  induction fuel with
  | zero => intro s _; rfl
  | succ n ih =>
    intro s h
    cases s with
    | nil => rfl
    | cons c rest =>
      rw [mdScanAux, fenceMatchAt_none_of_head (h c (List.mem_cons_self c rest))]
      exact ih rest (fun d hd => h d (List.mem_cons_of_mem c hd))

theorem processCandidate_of_le {c : Text} (h : c.length ≤ 20000) :
    processCandidate c = c := by
  unfold processCandidate
  have hd : decide (c.length > 20000) = false := decide_eq_false (by omega)
  rw [hd, Bool.false_and]
  simp

theorem selectLoop_two {c1 c2 : Text} (h1 : c1.length = 200)
    (h2 : c2.length = 5000) : selectLoop [c1, c2] [] 0 = c2 := by
  have hp1 : processCandidate c1 = c1 := processCandidate_of_le (by omega)
  have hp2 : processCandidate c2 = c2 := processCandidate_of_le (by omega)
  have hlast : selectLoop [c2] c1 c1.length = c2 := by
    simp only [selectLoop]
    rw [if_neg (by omega : ¬ c2.length < 100),
      if_neg (by rw [h2]; simp : ¬ (isSchema c2 && decide (c2.length < 5000)) = true)]
    simp only [hp2]
    rw [if_pos (by omega : c2.length > c1.length)]
  have hfirstpos : selectLoop [c2] ([] : Text) 0 = c2 := by
    simp only [selectLoop]
    rw [if_neg (by omega : ¬ c2.length < 100),
      if_neg (by rw [h2]; simp : ¬ (isSchema c2 && decide (c2.length < 5000)) = true)]
    simp only [hp2]
    rw [if_pos (by omega : c2.length > 0)]
  by_cases hs : isSchema c1 = true
  · simp only [selectLoop]
    rw [if_neg (by omega : ¬ c1.length < 100),
      if_pos (by rw [hs, h1]; rfl :
        (isSchema c1 && decide (c1.length < 5000)) = true)]
    exact hfirstpos
  · have hs' : isSchema c1 = false := by
      cases h : isSchema c1
      · rfl
      · exact absurd h hs
    simp only [selectLoop]
    rw [if_neg (by omega : ¬ c1.length < 100),
      if_neg (by rw [hs'] ; simp :
        ¬ (isSchema c1 && decide (c1.length < 5000)) = true)]
    simp only [hp1]
    rw [if_pos (by omega : c1.length > 0)]
    exact hlast

/-- Claim C6: for every input text whose candidate collection yields
exactly two candidates, of lengths 200 and 5000, with the 200-length one
first, the extractor returns the 5000-length candidate - the selection
stage keeps the longest surviving candidate regardless of order. -/
theorem extract_longest_candidate :
    ∀ (t c1 c2 : Text),
      collectCandidates (decodeEntities t) = [c1, c2] →
      c1.length = 200 → c2.length = 5000 →
      extractFromText t = some c2 := by
  intro t c1 c2 hc h1 h2
  have hdef : extractFromText t =
      (if (selectLoop (collectCandidates (decodeEntities t)) [] 0).isEmpty = true
       then none
       else some (selectLoop (collectCandidates (decodeEntities t)) [] 0)) := rfl
  rw [hdef, hc, selectLoop_two h1 h2]
  have hne : c2.isEmpty = false := by
    cases c2
    · simp at h2
    · rfl
  rw [hne]
  simp

def exArr200 : Text := '[' :: (List.replicate 198 'a' ++ [']'])

def exObj5000 : Text := openBrace :: (List.replicate 4998 'y' ++ [closeBrace])

def exNl : Text := ['\n']

def exText6 : Text := startTag ++ (exArr200 ++ (endTag ++ (exNl ++ exObj5000)))

def exA6 : Text := startTag ++ (exArr200 ++ (endTag ++ exNl))

theorem not_mem_append2 {c : Char} {xs ys : Text} (hx : c ∉ xs) (hy : c ∉ ys) :
    c ∉ xs ++ ys := by
  intro h
  rcases List.mem_append.mp h with h' | h'
  · exact hx h'
  · exact hy h'

theorem arr200_chars : ∀ c ∈ exArr200, c = '[' ∨ c = 'a' ∨ c = ']' := by
  intro c hc
  unfold exArr200 at hc
  rcases List.mem_cons.mp hc with h | h
  · exact Or.inl h
  · rcases List.mem_append.mp h with h' | h'
    · exact Or.inr (Or.inl (List.eq_of_mem_replicate h'))
    · exact Or.inr (Or.inr (List.mem_singleton.mp h'))

theorem obj5000_chars : ∀ c ∈ exObj5000,
    c = openBrace ∨ c = 'y' ∨ c = closeBrace := by
  intro c hc
  unfold exObj5000 at hc
  rcases List.mem_cons.mp hc with h | h
  · exact Or.inl h
  · rcases List.mem_append.mp h with h' | h'
    · exact Or.inr (Or.inl (List.eq_of_mem_replicate h'))
    · exact Or.inr (Or.inr (List.mem_singleton.mp h'))

theorem exText6_no_amp : ∀ c ∈ exText6, c ≠ '&' := by
  intro c hc he
  subst he
  unfold exText6 at hc
  rcases List.mem_append.mp hc with h | h
  · exact (by decide : ('&' : Char) ∉ startTag) h
  · rcases List.mem_append.mp h with h' | h'
    · rcases arr200_chars _ h' with h'' | h'' | h'' <;> simp at h''
    · rcases List.mem_append.mp h' with h2 | h2
      · exact (by decide : ('&' : Char) ∉ endTag) h2
      · rcases List.mem_append.mp h2 with h3 | h3
        · exact (by decide : ('&' : Char) ∉ exNl) h3
        · rcases obj5000_chars _ h3 with h4 | h4 | h4 <;> simp [openBrace, closeBrace] at h4

theorem exText6_no_tick : ∀ c ∈ exText6, c ≠ Char.ofNat 96 := by
  intro c hc he
  subst he
  unfold exText6 at hc
  rcases List.mem_append.mp hc with h | h
  · exact (by decide : Char.ofNat 96 ∉ startTag) h
  · rcases List.mem_append.mp h with h' | h'
    · rcases arr200_chars _ h' with h'' | h'' | h'' <;> simp at h''
    · rcases List.mem_append.mp h' with h2 | h2
      · exact (by decide : Char.ofNat 96 ∉ endTag) h2
      · rcases List.mem_append.mp h2 with h3 | h3
        · exact (by decide : Char.ofNat 96 ∉ exNl) h3
        · rcases obj5000_chars _ h3 with h4 | h4 | h4 <;> simp [openBrace, closeBrace] at h4

theorem decode_id_ex6 : decodeEntities exText6 = exText6 := by
  have hlt : "&lt;".toList = '&' :: "lt;".toList := by decide
  have hgt : "&gt;".toList = '&' :: "gt;".toList := by decide
  have hqt : "&quot;".toList = '&' :: "quot;".toList := by decide
  unfold decodeEntities
  rw [hlt, hgt, hqt,
    replaceAll_id_of_head_notMem exText6_no_amp,
    replaceAll_id_of_head_notMem exText6_no_amp,
    replaceAll_id_of_head_notMem exText6_no_amp]

theorem md_ex6 : mdCandidates exText6 = [] :=
  mdScanAux_nil_of_no_tick _ _ exText6_no_tick

theorem startTag_len : startTag.length = 16 := by decide

theorem endTag_len : endTag.length = 14 := by decide

theorem arr200_len : exArr200.length = 200 := by
  unfold exArr200
  rw [List.length_cons, List.length_append, List.length_replicate]
  rfl

theorem obj5000_len : exObj5000.length = 5000 := by
  unfold exObj5000
  rw [List.length_cons, List.length_append, List.length_replicate]
  rfl

theorem obj5000_take16 : exObj5000.take 16 = openBrace :: List.replicate 15 'y' := by
  unfold exObj5000
  rw [show (16 : Nat) = 15 + 1 from rfl, List.take_succ_cons,
    List.take_append_eq_append_take, take_replicate_min,
    List.length_replicate, show (15 : Nat) - 4998 = 0 by decide,
    List.take_zero, List.append_nil, show min 15 4998 = 15 by decide]

theorem delim_ex6 : delimCandidates exText6 = [exArr200] := by
  have hconsS : startTag = '<' :: "<<JSON_START>>>".toList := by decide
  have hconsE : endTag = '<' :: "<<JSON_END>>>".toList := by decide
  have hsplit : exText6 = exA6 ++ exObj5000 := by
    simp [exText6, exA6, List.append_assoc]
  have hobjlt : ∀ c ∈ exObj5000, c ≠ '<' := by
    intro c hc he
    subst he
    rcases obj5000_chars _ hc with h | h | h <;>
      simp [openBrace, closeBrace] at h
  have hlast : lastSubstrIdx startTag exText6 = some 0 := by
    rw [hsplit, lastSubstrIdx_append, hconsS,
      lastSubstrIdx_none_of_head_notMem exObj5000 hobjlt,
      lastSubstrIdxFrom_take, ← hconsS]
    rw [startTag_len, obj5000_take16]
    decide
  unfold delimCandidates
  simp only [hlast]
  have hdrop : exText6.drop (0 + startTag.length) =
      exArr200 ++ (endTag ++ (exNl ++ exObj5000)) := by
    rw [Nat.zero_add, exText6, List.drop_left]
  rw [hdrop]
  have htake14 : (endTag ++ (exNl ++ exObj5000)).take endTag.length = endTag := by
    rw [List.take_append_eq_append_take, Nat.sub_self, List.take_zero,
      List.append_nil, List.take_length]
  have hfromNone : substrIdxFrom endTag exArr200 (endTag ++ (exNl ++ exObj5000)) =
      none := by
    rw [substrIdxFrom_take, htake14, hconsE]
    apply substrIdxFrom_none_of_head_notMem
    intro c hc he
    subst he
    rcases arr200_chars _ hc with h | h | h <;> simp at h
  have hidx : substrIdx endTag (exArr200 ++ (endTag ++ (exNl ++ exObj5000))) =
      some 200 := by
    rw [substrIdx_append, hfromNone]
    rw [hconsE, substrIdx_cons_self_append]
    simp [arr200_len]
  simp only [hidx]
  have htake200 : (exArr200 ++ (endTag ++ (exNl ++ exObj5000))).take 200 =
      exArr200 := by
    rw [List.take_left' arr200_len]
  rw [htake200]
  have htrim : jsTrim exArr200 = exArr200 := by
    apply jsTrim_id_of_no_ws
    intro c hc
    rcases arr200_chars _ hc with h | h | h <;> subst h <;> rfl
  rw [htrim]

theorem a6_len : exA6.length = 231 := by
  unfold exA6 exNl
  rw [List.length_append, List.length_append, List.length_append, arr200_len,
    startTag_len, endTag_len]
  rfl

theorem a6_no_open : ∀ c ∈ exA6, c ≠ openBrace := by
  intro c hc he
  subst he
  unfold exA6 at hc
  rcases List.mem_append.mp hc with h | h
  · exact (by decide : openBrace ∉ startTag) h
  · rcases List.mem_append.mp h with h' | h'
    · rcases arr200_chars _ h' with h2 | h2 | h2 <;> simp [openBrace] at h2
    · rcases List.mem_append.mp h' with h2 | h2
      · exact (by decide : openBrace ∉ endTag) h2
      · exact (by decide : openBrace ∉ exNl) h2

theorem brute_ex6 : bruteCandidates exText6 = [exObj5000] := by
  have hsplit : exText6 = exA6 ++ exObj5000 := by
    simp [exText6, exA6, List.append_assoc]
  have hobjsplit : exObj5000 = [openBrace] ++ (List.replicate 4998 'y' ++ [closeBrace]) :=
    rfl
  have htake1 : exObj5000.take ([openBrace].length) = [openBrace] := by
    rw [show [openBrace].length = 0 + 1 from rfl]
    unfold exObj5000
    rw [List.take_succ_cons, List.take_zero]
  have hfirst : substrIdx [openBrace] exText6 = some 231 := by
    rw [hsplit, substrIdx_append, substrIdxFrom_take, htake1,
      substrIdxFrom_none_of_head_notMem [openBrace] exA6 a6_no_open]
    rw [hobjsplit, substrIdx_cons_self_append]
    simp [a6_len]
  have hobjsplit2 : exObj5000 = (openBrace :: List.replicate 4998 'y') ++ [closeBrace] :=
    rfl
  have hlastobj : lastSubstrIdx [closeBrace] exObj5000 = some 4999 := by
    rw [hobjsplit2, lastSubstrIdx_append,
      show lastSubstrIdx [closeBrace] [closeBrace] = some 0 by decide]
    rw [List.length_cons, List.length_replicate]
  have hlast : lastSubstrIdx [closeBrace] exText6 = some 5230 := by
    rw [hsplit, lastSubstrIdx_append, hlastobj, a6_len]
  unfold bruteCandidates
  simp only [hfirst, hlast]
  rw [if_pos (by decide : (231 : Nat) < 5230)]
  have hdrop : exText6.drop 231 = exObj5000 := by
    rw [hsplit, List.drop_left' a6_len]
  rw [hdrop, show (5230 + 1 - 231 : Nat) = 5000 from by decide,
    ← obj5000_len, List.take_length]

theorem collect_ex6 :
    collectCandidates (decodeEntities exText6) = [exArr200, exObj5000] := by
  rw [decode_id_ex6]
  unfold collectCandidates
  rw [delim_ex6, md_ex6, brute_ex6]
  rfl

/-- Witness for C6: the longest-candidate law applied to a concrete page
text with a 200-character sentinel-delimited array followed (later in
document order) by a 5000-character brace-span object: the extractor
returns the 5000-character candidate. -/
theorem extract_longest_candidate_witness :
    extractFromText exText6 = some exObj5000 :=
  extract_longest_candidate exText6 exArr200 exObj5000 collect_ex6 arr200_len
    obj5000_len

def exSkel : Text := "\x7b\x22extraction_metadata\x22: \x7b\x7d\x7d".toList

def exFillerX : Text := List.replicate 4973 'x'

def exRealHead : Text := "\x7b\x22nodes\x22:\x22".toList

def exRealTail : Text := "\x22\x7d".toList

def exReal : Text := exRealHead ++ (List.replicate 140 'a' ++ exRealTail)

def exText5 : Text := exSkel ++ (exFillerX ++ (startTag ++ (exReal ++ endTag)))

def exBlob5 : Text := exSkel ++ (exFillerX ++ (startTag ++ exReal))

theorem skel_len : exSkel.length = 27 := by decide

theorem real_len : exReal.length = 152 := by
  unfold exReal
  rw [List.length_append, List.length_append, List.length_replicate]
  decide

theorem blob5_len : exBlob5.length = 5168 := by
  unfold exBlob5 exFillerX
  rw [List.length_append, List.length_append, List.length_append,
    List.length_replicate, real_len, skel_len, startTag_len]

theorem real_chars : ∀ c ∈ exReal,
    c ∈ exRealHead ∨ c = 'a' ∨ c ∈ exRealTail := by
  intro c hc
  unfold exReal at hc
  rcases List.mem_append.mp hc with h | h
  · exact Or.inl h
  · rcases List.mem_append.mp h with h' | h'
    · exact Or.inr (Or.inl (List.eq_of_mem_replicate h'))
    · exact Or.inr (Or.inr h')

theorem exText5_no_amp : ∀ c ∈ exText5, c ≠ '&' := by
  intro c hc he
  subst he
  unfold exText5 exFillerX at hc
  rcases List.mem_append.mp hc with h | h
  · exact (by decide : ('&' : Char) ∉ exSkel) h
  · rcases List.mem_append.mp h with h' | h'
    · exact (by decide : ('&' : Char) ≠ 'x') (List.eq_of_mem_replicate h')
    · rcases List.mem_append.mp h' with h2 | h2
      · exact (by decide : ('&' : Char) ∉ startTag) h2
      · rcases List.mem_append.mp h2 with h3 | h3
        · rcases real_chars _ h3 with h4 | h4 | h4
          · exact (by decide : ('&' : Char) ∉ exRealHead) h4
          · exact (by decide : ('&' : Char) ≠ 'a') h4
          · exact (by decide : ('&' : Char) ∉ exRealTail) h4
        · exact (by decide : ('&' : Char) ∉ endTag) h3

theorem exText5_no_tick : ∀ c ∈ exText5, c ≠ Char.ofNat 96 := by
  intro c hc he
  subst he
  unfold exText5 exFillerX at hc
  rcases List.mem_append.mp hc with h | h
  · exact (by decide : Char.ofNat 96 ∉ exSkel) h
  · rcases List.mem_append.mp h with h' | h'
    · exact (by decide : Char.ofNat 96 ≠ 'x') (List.eq_of_mem_replicate h')
    · rcases List.mem_append.mp h' with h2 | h2
      · exact (by decide : Char.ofNat 96 ∉ startTag) h2
      · rcases List.mem_append.mp h2 with h3 | h3
        · rcases real_chars _ h3 with h4 | h4 | h4
          · exact (by decide : Char.ofNat 96 ∉ exRealHead) h4
          · exact (by decide : Char.ofNat 96 ≠ 'a') h4
          · exact (by decide : Char.ofNat 96 ∉ exRealTail) h4
        · exact (by decide : Char.ofNat 96 ∉ endTag) h3

theorem decode_id_ex5 : decodeEntities exText5 = exText5 := by
  have hlt : "&lt;".toList = '&' :: "lt;".toList := by decide
  have hgt : "&gt;".toList = '&' :: "gt;".toList := by decide
  have hqt : "&quot;".toList = '&' :: "quot;".toList := by decide
  unfold decodeEntities
  rw [hlt, hgt, hqt,
    replaceAll_id_of_head_notMem exText5_no_amp,
    replaceAll_id_of_head_notMem exText5_no_amp,
    replaceAll_id_of_head_notMem exText5_no_amp]

theorem md_ex5 : mdCandidates exText5 = [] :=
  mdScanAux_nil_of_no_tick _ _ exText5_no_tick

theorem delim_ex5 : delimCandidates exText5 = [exReal] := by
  have hconsS : startTag = '<' :: "<<JSON_START>>>".toList := by decide
  have hconsE : endTag = '<' :: "<<JSON_END>>>".toList := by decide
  have hsplitP : exText5 = (exSkel ++ exFillerX) ++ (startTag ++ (exReal ++ endTag)) := by
    simp [exText5, List.append_assoc]
  have hplen : (exSkel ++ exFillerX).length = 5000 := by
    rw [List.length_append, skel_len]
    unfold exFillerX
    rw [List.length_replicate]
  have htail : lastSubstrIdx startTag (startTag ++ (exReal ++ endTag)) = some 0 := by
    decide
  have hlast : lastSubstrIdx startTag exText5 = some 5000 := by
    rw [hsplitP, lastSubstrIdx_append, htail, hplen]
  unfold delimCandidates
  simp only [hlast]
  have hsplit2 : exText5 =
      ((exSkel ++ exFillerX) ++ startTag) ++ (exReal ++ endTag) := by
    simp [exText5, List.append_assoc]
  have hlen2 : ((exSkel ++ exFillerX) ++ startTag).length = 5000 + startTag.length := by
    rw [List.length_append, hplen]
  have hdrop : exText5.drop (5000 + startTag.length) = exReal ++ endTag := by
    rw [hsplit2, List.drop_left' hlen2]
  rw [hdrop]
  have hfromNone : substrIdxFrom endTag exReal endTag = none := by
    rw [substrIdxFrom_take, endTag_len, ← endTag_len, List.take_length, hconsE]
    apply substrIdxFrom_none_of_head_notMem
    intro c hc he
    subst he
    rcases real_chars _ hc with h | h | h
    · exact (by decide : ('<' : Char) ∉ exRealHead) h
    · exact (by decide : ('<' : Char) ≠ 'a') h
    · exact (by decide : ('<' : Char) ∉ exRealTail) h
  have hidx : substrIdx endTag (exReal ++ endTag) = some 152 := by
    rw [substrIdx_append, hfromNone]
    rw [show substrIdx endTag endTag = some 0 by decide]
    simp [real_len]
  simp only [hidx]
  have htake : (exReal ++ endTag).take 152 = exReal := List.take_left' real_len
  rw [htake]
  have htrim : jsTrim exReal = exReal := by
    apply jsTrim_id_of_no_ws
    intro c hc
    rcases real_chars _ hc with h | h | h
    · rcases (by decide : ∀ d ∈ exRealHead, isWs d = false) c h with h'
      exact h'
    · subst h; rfl
    · rcases (by decide : ∀ d ∈ exRealTail, isWs d = false) c h with h'
      exact h'
  rw [htrim]

theorem brute_ex5 : bruteCandidates exText5 = [exBlob5] := by
  have hsplitB : exText5 = exBlob5 ++ endTag := by
    simp [exText5, exBlob5, List.append_assoc]
  have hrest1 : (exFillerX ++ (startTag ++ (exReal ++ endTag))).take 1 = ['x'] := by
    unfold exFillerX
    rw [List.take_append_eq_append_take, take_replicate_min,
      show min 1 4973 = 1 by decide, List.length_replicate,
      show (1 : Nat) - 4973 = 0 by decide, List.take_zero, List.append_nil,
      List.replicate_one]
  have hfirst : substrIdx [openBrace] exText5 = some 0 := by
    unfold exText5
    rw [substrIdx_append, substrIdxFrom_take,
      show [openBrace].length = 1 by decide, hrest1,
      show substrIdxFrom [openBrace] exSkel ['x'] = some 0 by decide]
  have hlastE : lastSubstrIdx [closeBrace] endTag = none := by decide
  have hsplitR : exBlob5 = (exSkel ++ (exFillerX ++ startTag)) ++ exReal := by
    simp [exBlob5, List.append_assoc]
  have hrlen : (exSkel ++ (exFillerX ++ startTag)).length = 5016 := by
    rw [List.length_append, List.length_append, skel_len, startTag_len]
    unfold exFillerX
    rw [List.length_replicate]
  have hlast : lastSubstrIdx [closeBrace] exText5 = some 5167 := by
    rw [hsplitB, lastSubstrIdx_append, hlastE, lastSubstrIdxFrom_take,
      show [closeBrace].length = 1 by decide,
      show endTag.take 1 = ['<'] by decide]
    rw [hsplitR, lastSubstrIdxFrom_append,
      show lastSubstrIdxFrom [closeBrace] exReal ['<'] = some 151 by decide,
      hrlen]
  unfold bruteCandidates
  simp only [hfirst, hlast]
  rw [if_pos (by decide : (0 : Nat) < 5167)]
  rw [List.drop_zero, show (5167 + 1 - 0 : Nat) = 5168 by decide,
    hsplitB, List.take_left' blob5_len]

theorem isSchema_blob5 : isSchema exBlob5 = true := by
  have h1 : hasSubstr exSkel schemaMarker1 = true := by decide
  have h2 : hasSubstr exBlob5 schemaMarker1 = true := by
    unfold exBlob5
    exact hasSubstr_append_left' h1 _
  unfold isSchema
  rw [h2, Bool.true_or]

theorem isSchema_real : isSchema exReal = false := by decide

theorem collect_ex5 :
    collectCandidates (decodeEntities exText5) = [exReal, exBlob5] := by
  rw [decode_id_ex5]
  unfold collectCandidates
  rw [delim_ex5, md_ex5, brute_ex5]
  rfl

theorem select_ex5 : selectLoop [exReal, exBlob5] [] 0 = exBlob5 := by
  have hp1 : processCandidate exReal = exReal := by
    apply processCandidate_of_le
    rw [real_len]
    omega
  have hp2 : processCandidate exBlob5 = exBlob5 := by
    apply processCandidate_of_le
    rw [blob5_len]
    omega
  simp only [selectLoop]
  rw [if_neg (by rw [real_len]; omega : ¬ exReal.length < 100),
    if_neg (by rw [isSchema_real]; simp :
      ¬ (isSchema exReal && decide (exReal.length < 5000)) = true)]
  simp only [hp1]
  rw [if_pos (by rw [real_len]; omega : exReal.length > 0)]
  rw [if_neg (by rw [blob5_len]; omega : ¬ exBlob5.length < 100),
    if_neg (by rw [blob5_len]; simp :
      ¬ (isSchema exBlob5 && decide (exBlob5.length < 5000)) = true)]
  simp only [hp2]
  rw [if_pos (by rw [blob5_len, real_len]; omega :
    exBlob5.length > exReal.length)]

/-- Claim C5 counterexample: a response text whose sentinel-delimited
JSON object (152 chars) sits inside a larger prompt-echo blob that also
contains the empty schema skeleton. The brace-span candidate is the
whole 5168-character blob: it contains the skeleton marker, but because
its length is in [5000, 20000) it is neither skipped by the
schema-skeleton filter (which only drops schema candidates under 5000
chars) nor trimmed (which requires over 20000 chars), and being longest
it wins - the extractor returns the blob, NOT the delimited object,
contrary to the claim. -/
theorem extract_midsize_blob_beats_delimited :
    delimCandidates (decodeEntities exText5) = [exReal] ∧
    isSchema exBlob5 = true ∧
    extractFromText exText5 = some exBlob5 ∧
    exBlob5 ≠ exReal := by
  refine ⟨by rw [decode_id_ex5]; exact delim_ex5, isSchema_blob5, ?_, ?_⟩
  · have hdef : extractFromText exText5 =
        (if (selectLoop (collectCandidates (decodeEntities exText5)) [] 0).isEmpty = true
         then none
         else some (selectLoop (collectCandidates (decodeEntities exText5)) [] 0)) :=
      rfl
    rw [hdef, collect_ex5, select_ex5]
    have hne : exBlob5.isEmpty = false := by
      unfold exBlob5 exSkel
      rw [show ("\x7b\x22extraction_metadata\x22: \x7b\x7d\x7d".toList : Text) =
        openBrace :: "\x22extraction_metadata\x22: \x7b\x7d\x7d".toList by decide]
      rfl
    rw [hne]
    simp
  · intro he
    have := congrArg List.length he
    rw [blob5_len, real_len] at this
    exact absurd this (by decide)

def exFiller300 : Text := List.replicate 300 'x'

def exText5small : Text := exSkel ++ (exFiller300 ++ (startTag ++ (exReal ++ endTag)))

/-- Claim C5 (amended): the surgical trim applies exactly as coded - a
candidate over 20000 characters that still contains the schema skeleton,
with a second occurrence of the key marker, is trimmed to start at the
brace immediately preceding that second occurrence; and in the spec's
round-trip scenario with the echoed blob under 5000 characters, the
schema-skeleton filter drops the blob and the extractor returns exactly
the sentinel-delimited object. (For blob sizes in [5000, 20000) the
counterexample shows the untrimmed blob wins instead.) -/
theorem schema_skeleton_trim :
    (∀ (c : Text) (first d realStart : Nat),
        c.length > 20000 → isSchema c = true →
        substrIdx keyMarker c = some first →
        substrIdx keyMarker (c.drop (first + 1)) = some d →
        lastSubstrIdx [openBrace] (c.take (first + 1 + d + 1)) = some realStart →
        processCandidate c = c.drop realStart) ∧
    extractFromText exText5small = some exReal := by
  constructor
  · intro c first d realStart h1 h2 h3 h4 h5
    unfold processCandidate
    rw [if_pos (by rw [decide_eq_true h1, h2]; rfl :
      (decide (c.length > 20000) && isSchema c) = true)]
    simp only [h3, h4, h5]
  · decide

def exTrimP1 : Text := "\x7b\x22extraction_metadata\x22: \x7b\x7d, \x22a\x22: ".toList

def exTrimP2 : Text := "\x7b\x22extraction_metadata\x22: \x22v\x22, \x22p\x22: \x22".toList

def exTrimTail : Text := "\x22\x7d".toList

def exTrimCand : Text :=
  exTrimP1 ++ (exTrimP2 ++ (List.replicate 20000 'y' ++ exTrimTail))

theorem trimP1_len : exTrimP1.length = 33 := by decide

theorem trimP2_len : exTrimP2.length = 35 := by decide

theorem keyMarker_len : keyMarker.length = 21 := by decide

theorem trimCand_len : exTrimCand.length = 20070 := by
  unfold exTrimCand
  rw [List.length_append, List.length_append, List.length_append,
    List.length_replicate, trimP1_len, trimP2_len]
  rfl

theorem trim_rest_take21 :
    (exTrimP2 ++ (List.replicate 20000 'y' ++ exTrimTail)).take 21 =
      exTrimP2.take 21 := by
  rw [List.take_append_eq_append_take, trimP2_len,
    show (21 : Nat) - 35 = 0 by decide, List.take_zero, List.append_nil]

theorem trim_rest2_take21 :
    (List.replicate 20000 'y' ++ exTrimTail).take 21 = List.replicate 21 'y' := by
  rw [List.take_append_eq_append_take, take_replicate_min,
    show min 21 20000 = 21 by decide, List.length_replicate,
    show (21 : Nat) - 20000 = 0 by decide, List.take_zero, List.append_nil]

theorem trim_first : substrIdx keyMarker exTrimCand = some 1 := by
  unfold exTrimCand
  rw [substrIdx_append, substrIdxFrom_take, keyMarker_len, trim_rest_take21,
    show substrIdxFrom keyMarker exTrimP1 (exTrimP2.take 21) = some 1 by decide]

theorem trim_second : substrIdx keyMarker (exTrimCand.drop 2) = some 32 := by
  have hdrop : exTrimCand.drop 2 =
      exTrimP1.drop 2 ++ (exTrimP2 ++ (List.replicate 20000 'y' ++ exTrimTail)) := by
    unfold exTrimCand
    rw [List.drop_append_eq_append_drop, show (2 : Nat) - exTrimP1.length = 0 by
      rw [trimP1_len], List.drop_zero]
  rw [hdrop, substrIdx_append, substrIdxFrom_take, keyMarker_len, trim_rest_take21,
    show substrIdxFrom keyMarker (exTrimP1.drop 2) (exTrimP2.take 21) = none
      by decide]
  rw [substrIdx_append, substrIdxFrom_take, keyMarker_len, trim_rest2_take21,
    show substrIdxFrom keyMarker exTrimP2 (List.replicate 21 'y') = some 1
      by decide]
  simp [trimP2_len]
  decide

theorem trim_realStart :
    lastSubstrIdx [openBrace] (exTrimCand.take 35) = some 33 := by
  have htake : exTrimCand.take 35 = exTrimP1 ++ exTrimP2.take 2 := by
    unfold exTrimCand
    rw [List.take_append_eq_append_take, trimP1_len,
      show (35 : Nat) - 33 = 2 by decide,
      show exTrimP1.take 35 = exTrimP1 by decide,
      List.take_append_eq_append_take, trimP2_len,
      show (2 : Nat) - 35 = 0 by decide, List.take_zero, List.append_nil]
  rw [htake, show lastSubstrIdx [openBrace] (exTrimP1 ++ exTrimP2.take 2) =
    some 33 by decide]

theorem trim_isSchema : isSchema exTrimCand = true := by
  have h1 : hasSubstr exTrimP1 schemaMarker1 = true := by decide
  have h2 : hasSubstr exTrimCand schemaMarker1 = true := by
    unfold exTrimCand
    exact hasSubstr_append_left' h1 _
  unfold isSchema
  rw [h2, Bool.true_or]

/-- Witness for C5: the trim law applied to a concrete 20070-character
candidate whose echoed skeleton precedes the real payload - the
candidate is trimmed to start at the brace before the second
"extraction_metadata" key - together with the small-blob round-trip
instance from the amended theorem. -/
theorem schema_skeleton_trim_witness :
    exTrimCand.length > 20000 ∧
    processCandidate exTrimCand = exTrimCand.drop 33 ∧
    extractFromText exText5small = some exReal :=
  ⟨by rw [trimCand_len]; omega,
   schema_skeleton_trim.1 exTrimCand 1 32 33 (by rw [trimCand_len]; omega)
     trim_isSchema trim_first trim_second trim_realStart,
   schema_skeleton_trim.2⟩
